import Mathlib

/-!
Verification model of the kundenbot-template repository.

The repository is a Next.js app with three variants of the chat route
(a soft-threshold variant with best-available fallback, a legacy variant,
and a hard-threshold variant), an admin scrape/ingest route, and a
standalone ingest script.  This file shallowly embeds the data model and
the control flow of those handlers: JavaScript strings are `String` (or
`List Char` where the code slices and trims page text), JS numbers used as
similarity scores are `ℚ`, nullable values are `Option`, and the external
capabilities (store, fetch, embedding, generation) are oracles passed in as
function arguments.  HTML parsing, URL parsing and regular expressions are
abstracted at their outputs: a fetched page is given by its extraction
results (ok flag, extracted text, anchor href candidates with their
resolution results), which is exactly the data the handlers consume.
-/

/-- A similarity search result row as returned by the vector search RPC
(`match_embeddings`): id, content, similarity.  `content` is `none` when the
column is null or undefined; `similarity` is `none` when it is not a number
(the routes guard with a `typeof` check). -/
structure RagMatch where
  id : String
  content : Option String
  similarity : Option ℚ
deriving DecidableEq, Repr

/-- The similarity score the sort comparators read (`m.similarity`); after the
typeof-filter it is always present, `0` stands in for the absent case. -/
def simOf (m : RagMatch) : ℚ := m.similarity.getD 0

/-- JavaScript `String.prototype.trim` on the character list of a string:
drop whitespace from both ends.  (Lean's own `String.trim` is equivalent but
does not evaluate inside the kernel, so the model works on `List Char`.) -/
def trimChars (l : List Char) : List Char :=
  ((l.dropWhile Char.isWhitespace).reverse.dropWhile Char.isWhitespace).reverse

/-- The filter applied in the soft-threshold chat route before ranking:
`typeof m.similarity === "number" && !!m.content && m.content.trim().length > 0`. -/
def usableMatch (m : RagMatch) : Bool :=
  m.similarity.isSome &&
    (match m.content with
     | none => false
     | some s => !s.isEmpty && decide (0 < (trimChars s.data).length))

/-- Stable insertion of `m` into a list sorted descending by similarity:
`m` goes in front of the first element whose score is `≤` its own, so an
earlier element is never moved behind an equal later one.  This models the
ECMAScript stable `Array.prototype.sort` with comparator
`(a, b) => b.similarity - a.similarity`. -/
def insertDesc (m : RagMatch) : List RagMatch → List RagMatch
  | [] => [m]
  | y :: ys => if simOf y ≤ simOf m then m :: y :: ys else y :: insertDesc m ys

/-- Stable sort descending by similarity (see `insertDesc`). -/
def sortDesc (l : List RagMatch) : List RagMatch := l.foldr insertDesc []

/-- The soft-threshold ranking policy of the chat route, applied to the
already-filtered (`usableMatch`) matches:
`above = scored.filter(m => m.similarity >= t).sort(desc)`;
`top = (above.length > 0 ? above : scored).sort(desc).slice(0, k)`.
In the route, `t = 0.20` and `k = 4`. -/
def rankMatches (t : ℚ) (k : Nat) (scored : List RagMatch) : List RagMatch :=
  let above := sortDesc (scored.filter (fun m => decide (t ≤ simOf m)))
  (sortDesc (if 0 < above.length then above else scored)).take k

/-- The soft threshold constant `MIN_SIMILARITY = 0.20` of the soft-threshold
chat route, written as `mkRat 1 5` so that the kernel can evaluate
comparisons against it; `minSimilaritySoft_eq` identifies it with the source
literal. -/
def minSimilaritySoft : ℚ := mkRat 1 5

/-- The hard threshold constant `MIN_SIMILARITY = 0.75` of the hard-threshold
chat route variant (`minSimilarityHard_eq` identifies it with the source
literal). -/
def minSimilarityHard : ℚ := mkRat 3 4

/-- A tenant row (`tenants` table): id, name, slug. -/
structure TenantRec where
  id : String
  name : String
  slug : String
deriving DecidableEq, Repr

/-- A tenant settings row (`tenant_settings`): welcome and fallback message. -/
structure TenantSettings where
  welcome_message : String
  fallback_message : String
deriving DecidableEq, Repr

/-- The defaults synthesized by `getTenantSettings` when the settings row is
missing or the lookup errors. -/
def defaultSettings : TenantSettings where
  welcome_message := "Wie kann ich Ihnen helfen?"
  fallback_message := "Leider habe ich hierzu noch keine Informationen hinterlegt."

/-- A chat request: the `message` and `slug` fields of the JSON body, the
`message`, `slug` and `debug` query parameters, and the `x-tenant-slug`
header.  `none` models an absent field or parameter. -/
structure ChatRequest where
  bodyMessage : Option String
  queryMessage : Option String
  bodySlug : Option String
  querySlug : Option String
  headerSlug : Option String
  debug : Bool
deriving DecidableEq, Repr

/-- JavaScript nullish coalescing `a ?? b` on optional strings: an empty
string is kept (it is not nullish). -/
def jsCoalesce (a b : Option String) : Option String :=
  match a with
  | some x => some x
  | none => b

/-- The `message` value computed by all three chat routes:
`body.message ?? url.searchParams.get("message") ?? ""`. -/
def messageOf (req : ChatRequest) : String :=
  (jsCoalesce req.bodyMessage req.queryMessage).getD ""

/-- The slug chain `body.slug ?? query slug ?? x-tenant-slug header` shared by
all three chat routes (before the legacy route's demo default). -/
def slugChainOf (req : ChatRequest) : Option String :=
  jsCoalesce (jsCoalesce req.bodySlug req.querySlug) req.headerSlug

/-- The environment a chat request runs against: the tenant lookup by slug,
the settings lookup by tenant id, the outcome of the embed + vector-search
stage (`none` models a thrown embedding or vector-search error, caught by the
route), and the outcome of the generation call (`none` models a thrown call,
`some none` a completion with empty content, `some (some s)` content `s`). -/
structure ChatEnv where
  tenants : String → Option TenantRec
  settings : String → Option TenantSettings
  rag : Option (List RagMatch)
  gen : Option (Option String)

/-- The observable response of a chat route: 400, 500, the debug payload, or
a JSON reply.  `fromKb` is `none` when the handler does not put a `from_kb`
field into the reply (the legacy variant). -/
inductive ChatResult where
  | badRequest (err : String)
  | serverError (err : String)
  | debugInfo (ms relevant : List RagMatch)
  | reply (text welcome : String) (fromKb : Option Bool)
deriving DecidableEq, Repr

/-- HTTP status code of a `ChatResult`. -/
def statusOf : ChatResult → Nat
  | .badRequest _ => 400
  | .serverError _ => 500
  | .debugInfo _ _ => 200
  | .reply _ _ _ => 200

/-- Side effects of a chat request we track: which slugs were looked up in
the `tenants` table, whether the generation capability was invoked, and the
matches whose contents were put into the prompt's knowledge block when it
was. -/
structure ChatTrace where
  tenantLookups : List String
  genCalled : Bool
  kbMatches : List RagMatch
deriving DecidableEq, Repr

/-- The soft-threshold chat route handler (`POST`): message/slug checks,
tenant + settings resolution, RAG search with catch-to-empty, the
`usableMatch` filter, the debug branch, the zero-match fallback branch, and
otherwise ranking (`rankMatches`) followed by the generation call.  An empty
completion falls back to the tenant's fallback message; a thrown generation
call propagates to the outer catch (500). -/
def chatSoftPOST (req : ChatRequest) (env : ChatEnv) : ChatResult × ChatTrace :=
  let message := messageOf req
  if message = "" then (.badRequest ("message required"), ⟨[], false, []⟩)
  else
    match slugChainOf req with
    | none => (.badRequest ("slug required"), ⟨[], false, []⟩)
    | some slug =>
      if slug = "" then (.badRequest ("slug required"), ⟨[], false, []⟩)
      else
        match env.tenants slug with
        | none => (.serverError ("Tenant not found"), ⟨[slug], false, []⟩)
        | some tenant =>
          let settings := (env.settings tenant.id).getD defaultSettings
          let rows := env.rag.getD []
          let scored := rows.filter usableMatch
          if req.debug then
            (.debugInfo scored
              (scored.filter (fun m => decide (minSimilaritySoft ≤ simOf m))),
             ⟨[slug], false, []⟩)
          else if scored.length = 0 then
            (.reply settings.fallback_message settings.welcome_message
              (some false), ⟨[slug], false, []⟩)
          else
            let top := rankMatches minSimilaritySoft 4 scored
            match env.gen with
            | none => (.serverError ("generation failed"), ⟨[slug], true, top⟩)
            | some content =>
              (.reply (content.getD settings.fallback_message)
                settings.welcome_message (some true), ⟨[slug], true, top⟩)

/-- The hard-threshold chat route variant (`POST`): same request parsing, but
matches are filtered by `typeof m.similarity === "number" && m.similarity >=
0.75`, there is no best-available fallback and no sort/cap: all relevant
matches become context. -/
def chatHardPOST (req : ChatRequest) (env : ChatEnv) : ChatResult × ChatTrace :=
  let message := messageOf req
  if message = "" then (.badRequest ("message required"), ⟨[], false, []⟩)
  else
    match slugChainOf req with
    | none => (.badRequest ("slug required"), ⟨[], false, []⟩)
    | some slug =>
      if slug = "" then (.badRequest ("slug required"), ⟨[], false, []⟩)
      else
        match env.tenants slug with
        | none => (.serverError ("Tenant not found"), ⟨[slug], false, []⟩)
        | some tenant =>
          let settings := (env.settings tenant.id).getD defaultSettings
          let rows := env.rag.getD []
          let relevant := rows.filter
            (fun m => m.similarity.isSome &&
              decide (minSimilarityHard ≤ simOf m))
          if req.debug then
            (.debugInfo rows relevant, ⟨[slug], false, []⟩)
          else if relevant.length = 0 then
            (.reply settings.fallback_message settings.welcome_message
              (some false), ⟨[slug], false, []⟩)
          else
            match env.gen with
            | none =>
              (.serverError ("generation failed"), ⟨[slug], true, relevant⟩)
            | some content =>
              (.reply (content.getD settings.fallback_message)
                settings.welcome_message (some true), ⟨[slug], true, relevant⟩)

/-- The legacy chat route variant (`POST`): the slug chain ends in the demo
default `?? "kunden-muster"`, there is no zero-match fallback branch (an
informational placeholder line stands in for the knowledge block), the
generation call is always made, and the reply carries no `from_kb` field. -/
def chatLegacyPOST (req : ChatRequest) (env : ChatEnv) : ChatResult × ChatTrace :=
  let message := messageOf req
  if message = "" then (.badRequest ("message required"), ⟨[], false, []⟩)
  else
    let slug := (slugChainOf req).getD "kunden-muster"
    match env.tenants slug with
    | none => (.serverError ("Tenant not found"), ⟨[slug], false, []⟩)
    | some tenant =>
      let settings := (env.settings tenant.id).getD defaultSettings
      let rows := env.rag.getD []
      match env.gen with
      | none => (.serverError ("generation failed"), ⟨[slug], true, rows⟩)
      | some content =>
        (.reply (content.getD settings.fallback_message)
          settings.welcome_message none, ⟨[slug], true, rows⟩)

/-- The descending order the chat route's sort comparator induces: `a` may
come before `b` when `b`'s score is at most `a`'s. -/
def simGE (a b : RagMatch) : Prop := simOf b ≤ simOf a

/-- The concrete matches of the spec's first ranker example: scores
0.9, 0.3, 0.1 (written with `mkRat` so the kernel can evaluate them). -/
def rankExample1 : List RagMatch :=
  [⟨("m1"), some ("a"), some (mkRat 9 10)⟩,
   ⟨("m2"), some ("b"), some (mkRat 3 10)⟩,
   ⟨("m3"), some ("c"), some (mkRat 1 10)⟩]

/-- The concrete matches of the spec's second ranker example: scores
0.3, 0.2, none clearing the 0.5 threshold. -/
def rankExample2 : List RagMatch :=
  [⟨("m1"), some ("a"), some (mkRat 3 10)⟩,
   ⟨("m2"), some ("b"), some (mkRat 1 5)⟩]

/-- A concrete tenant fixture used by witnesses and counterexamples. -/
def exTenant : TenantRec := ⟨("t1"), ("Muster GmbH"), ("muster")⟩

/-- A concrete chat request: message and slug in the body, debug off. -/
def noKnowReq : ChatRequest := ⟨some ("hi"), none, some ("muster"), none, none, false⟩

/-- A concrete environment whose vector search returns zero matches and whose
generation capability would answer. -/
def noKnowEnv : ChatEnv :=
  ⟨fun s => if s = "muster" then some exTenant else none, fun _ => none,
   some [], some (some ("generated answer"))⟩

/-- An environment with one high-similarity usable match. -/
def replyEnv : ChatEnv :=
  ⟨fun s => if s = "muster" then some exTenant else none, fun _ => none,
   some [⟨("k1"), some ("Opening hours: 9-5"), some 1⟩], some (some ("an answer"))⟩

/-- A concrete chat request with a message but no slug anywhere. -/
def noSlugReq : ChatRequest := ⟨some ("hi"), none, none, none, none, false⟩

/-- A concrete request with no message anywhere. -/
def noMsgReq : ChatRequest := ⟨none, none, some ("muster"), none, none, false⟩

/-- An environment in which the legacy route's demo default slug resolves. -/
def kundenEnv : ChatEnv :=
  ⟨fun s => if s = "kunden-muster"
      then some ⟨("t2"), ("Demo"), ("kunden-muster")⟩ else none,
   fun _ => none, some [], some (some ("demo answer"))⟩

/-- The chunker's window size (`size = 800` at every call site). -/
def chunkSize : Nat := 800

/-- The chunker's overlap (`overlap = 150` at every call site). -/
def chunkOverlap : Nat := 150

/-- The chunker's stride `size - overlap`. -/
def chunkStep : Nat := chunkSize - chunkOverlap

/-- The chunker's while loop: while `i < text.length` push
`text.slice(i, i + size)` and advance `i` by the stride.  The remaining
text plays the role of `text.slice(i)`; the fuel argument only bookkeeps
termination and `chunkRaw` supplies one unit per loop iteration, which
suffices because the stride is positive. -/
def chunkGoF : Nat → List Char → List (List Char)
  | 0, _ => []
  | _, [] => []
  | f + 1, c :: cs => (c :: cs).take chunkSize :: chunkGoF f ((c :: cs).drop chunkStep)

/-- The raw windows of the ingest script's `chunk` before cleanup. -/
def chunkRaw (text : List Char) : List (List Char) := chunkGoF text.length text

/-- JavaScript `replace(/\s+/g, " ")`: collapse every maximal whitespace run
to a single space.  The boolean flag records whether the previous character
was inside a run whose space was already emitted. -/
def collapseAux : Bool → List Char → List Char
  | _, [] => []
  | inRun, c :: cs =>
    if c.isWhitespace then
      (if inRun then collapseAux true cs else ' ' :: collapseAux true cs)
    else c :: collapseAux false cs

/-- Whitespace-run collapsing, starting outside any run. -/
def collapseWs (l : List Char) : List Char := collapseAux false l

/-- The ingest script's `chunk(text, 800, 150)`: raw overlapping windows,
each collapsed (`replace(/\s+/g, " ")`), trimmed, and filtered by
`filter(Boolean)` which drops empty strings. -/
def chunk (text : List Char) : List (List Char) :=
  ((chunkRaw text).map (fun s => trimChars (collapseWs s))).filter
    (fun s => !s.isEmpty)

/-- A parsed absolute URL, abstracted at the output of the WHATWG `URL`
constructor: scheme, host, path and fragment.  Two URLs are the same page
key (for the visited set) exactly when all components agree, matching the
string keys `url.toString()` used by the code. -/
structure Url where
  scheme : String
  host : String
  path : String
  frag : String
deriving DecidableEq, Repr

/-- The origin of a URL as compared by `url.origin !== baseUrl.origin` in
the admin route's link extractor: scheme plus host. -/
def Url.origin (u : Url) : String × String := (u.scheme, u.host)

/-- The ingest script's `normalizeUrl`: parse the URL and clear its
fragment (`u.hash = ""`). -/
def Url.clearFrag (u : Url) : Url := { u with frag := "" }

/-- One anchor href candidate found in a page's markup: the raw attribute
text (on which the code performs its string-prefix and extension checks)
and the result of resolving it against the page's URL (`new URL(href,
base)`), `none` when resolution throws. -/
structure RawLink where
  raw : String
  resolved : Option Url
deriving DecidableEq, Repr

/-- String prefix test on characters (JavaScript `String.prototype.startsWith`;
Lean's byte-based test does not evaluate inside the kernel). -/
def strStarts (p s : String) : Bool := decide (s.data.take p.data.length = p.data)

/-- String suffix test on characters (JavaScript `String.prototype.endsWith`). -/
def strEnds (p s : String) : Bool :=
  decide (s.data.reverse.take p.data.length = p.data.reverse)

/-- Lower-cased copy of a string, for the case-insensitive image-extension
regular expression. -/
def lowerStr (s : String) : String := String.mk (s.data.map Char.toLower)

/-- The ingest script's `isCrawlableLink`: reject `mailto:`, `tel:`,
`javascript:` links, `.pdf`, and image extensions (case-insensitive). -/
def isCrawlableLink (href : String) : Bool :=
  !(strStarts ("mailto:") href) && !(strStarts ("tel:") href)
    && !(strStarts ("javascript:") href) && !(strEnds (".pdf") href)
    && !([(".jpg"), (".jpeg"), (".png"), (".webp"), (".gif")].any
          (fun e => strEnds e (lowerStr href)))

/-- The admin route's per-href filter inside `extractLinks`: skip anchors
(`#...`), `mailto:` and `tel:` links, drop hrefs that fail to resolve, and
keep only resolved URLs of the base's origin. -/
def keepAdminHref (base : Url) (l : RawLink) : Option Url :=
  if strStarts ("#") l.raw then none
  else if strStarts ("mailto:") l.raw || strStarts ("tel:") l.raw then none
  else
    match l.resolved with
    | none => none
    | some u => if u.origin = base.origin then some u else none

/-- First-occurrence deduplication, the iteration order of
`Array.from(new Set(hrefs))`. -/
def dedupFirstAux (seen : List Url) : List Url → List Url
  | [] => []
  | x :: xs =>
    if x ∈ seen then dedupFirstAux seen xs
    else x :: dedupFirstAux (seen ++ [x]) xs

/-- The admin route's `extractLinks`: same-origin resolved hrefs, in order,
duplicates removed. -/
def extractLinks (links : List RawLink) (base : Url) : List Url :=
  dedupFirstAux [] (links.filterMap (keepAdminHref base))

/-- A fetched page, abstracted at the output of fetch + extraction: the
response's `ok` flag, the extracted plain text (`extractText` in the admin
route, the readability text in the ingest script), and the page's anchor
href candidates. -/
structure FetchResult where
  ok : Bool
  text : List Char
  links : List RawLink
deriving DecidableEq, Repr

/-- The environment of one admin scrape request: the `ADMIN_PASSWORD`
secret (`none` when unset), the tenant lookup, the network (`none` models a
thrown fetch), and per-URL success of the knowledge-item insert, the
embedding call and the embedding insert. -/
structure AdminEnv where
  secret : Option String
  tenants : String → Option TenantRec
  fetch : Url → Option FetchResult
  kiOk : Url → Bool
  embCreateOk : Url → Bool
  embInsOk : Url → Bool

/-- The crawl loop's mutable state in the admin route: the visited set (in
insertion order), the queue, the accumulated `createdItems`, and the
knowledge-item and embedding rows inserted so far (keyed by the page URL
that produced them). -/
structure CrawlState where
  visited : List Url
  queue : List Url
  created : List (Url × String)
  kiRows : List (Url × List Char)
  embRows : List (Url × List Char)
deriving DecidableEq, Repr

/-- `path.replace(/\/+$/, "")`: strip trailing slashes. -/
def dropTrailingSlashes (p : String) : String :=
  String.mk ((p.data.reverse.dropWhile (fun c => c == '/')).reverse)

/-- Title derivation of the admin route: `"Website"` for the seed page,
otherwise the pathname without trailing slashes, or `"/"` if that is
empty. -/
def titleFor (base current : Url) : String :=
  if current = base then "Website"
  else
    let p := dropTrailingSlashes current.path
    if p = "" then "/" else p

/-- The admin route's page budget (`maxPages = 8`). -/
def maxPagesAdmin : Nat := 8

/-- Whether the admin route fully processes a page into a created item:
the fetch returns, the response is ok, the extracted text has at least 200
characters, and the knowledge-item insert succeeds.  (Embedding failures do
not affect this.) -/
def goodPage (env : AdminEnv) (u : Url) : Bool :=
  match env.fetch u with
  | none => false
  | some pg => pg.ok && decide (200 ≤ pg.text.length) && env.kiOk u

/-- The extracted text of a page as the admin route sees it (empty when the
fetch throws; only read behind `goodPage`). -/
def pageText (env : AdminEnv) (u : Url) : List Char :=
  match env.fetch u with
  | none => []
  | some pg => pg.text

/-- The links of a page as the admin route sees them. -/
def pageLinks (env : AdminEnv) (u : Url) : List RawLink :=
  match env.fetch u with
  | none => []
  | some pg => pg.links

/-- One fresh-page iteration of the admin crawl loop body, after `current`
has been popped and found unvisited: mark visited, fetch, and on success
insert the knowledge item (title + text truncated to 12000 characters), try
the embedding (text truncated to 8000 characters), record the created item,
and, when the page is the seed, enqueue up to 10 extracted links that are
not yet visited. -/
def crawlAdminStep (env : AdminEnv) (base current : Url) (rest : List Url)
    (s : CrawlState) : CrawlState :=
  let s1 : CrawlState := { s with visited := s.visited ++ [current], queue := rest }
  match env.fetch current with
  | none => s1
  | some pg =>
    if pg.ok = false then s1
    else if pg.text.length < 200 then s1
    else if env.kiOk current = false then s1
    else
      let s2 := { s1 with kiRows := s1.kiRows ++ [(current, pg.text.take 12000)] }
      let s3 := if env.embCreateOk current then
          (if env.embInsOk current then
            { s2 with embRows := s2.embRows ++ [(current, pg.text.take 8000)] }
          else s2)
        else s2
      let s4 := { s3 with created := s3.created ++ [(current, titleFor base current)] }
      if current = base then
        let newLinks := ((extractLinks pg.links base).take 10).filter
          (fun l => !(decide (l ∈ s4.visited)))
        { s4 with queue := s4.queue ++ newLinks }
      else s4

/-- The admin route's crawl loop
(`while (queue.length > 0 && visited.size < maxPages)`), fuelled: the fuel
only bookkeeps termination, one unit per iteration.  `adminFuel` exceeds
the largest possible iteration count (at most 1 seeded URL plus 10 enqueued
links are ever popped), so the fuel never runs out on any input. -/
def crawlAdminGo (env : AdminEnv) (base : Url) : Nat → CrawlState → CrawlState
  | 0, s => s
  | f + 1, s =>
    match s.queue with
    | [] => s
    | current :: rest =>
      if maxPagesAdmin ≤ s.visited.length then s
      else if current ∈ s.visited then
        crawlAdminGo env base f { s with queue := rest }
      else crawlAdminGo env base f (crawlAdminStep env base current rest s)

/-- Fuel for the admin crawl loop (see `crawlAdminGo`). -/
def adminFuel : Nat := 100

/-- The crawl state at the start of the admin route's loop: nothing
visited, the normalized base URL queued. -/
def initCrawlState (base : Url) : CrawlState := ⟨[], [base], [], [], []⟩

/-- The whole crawl-and-ingest loop of the admin route's `POST`. -/
def crawlAdmin (env : AdminEnv) (base : Url) : CrawlState :=
  crawlAdminGo env base adminFuel (initCrawlState base)

/-- An admin scrape request body: `password`, `slug` and `url`, each `none`
when absent.  `url` is the already-parsed normalized target
(`normalizeUrl` abstracted at its output). -/
structure AdminReq where
  password : Option String
  slug : Option String
  url : Option Url
deriving DecidableEq, Repr

/-- The admin route's response: 401, 400, the catch-all 500, or the success
payload `{ok, tenant, pages_processed, items}`. -/
inductive AdminRes where
  | unauthorized
  | badRequest
  | serverError (msg : String)
  | okRes (tenant : TenantRec) (pagesProcessed : Nat) (items : List (Url × String))
deriving DecidableEq, Repr

/-- Store operations of the admin route outside the crawl loop. -/
inductive StoreEv where
  | lookupTenant (slug : String)
  | deleteEmbeddings (tenantId : String)
  | deleteKnowledgeItems (tenantId : String)
deriving DecidableEq, Repr

/-- The observable outcome of one admin scrape request: the response, the
store events performed before the crawl, and the final crawl state (whose
`kiRows`/`embRows` are the rows inserted during the crawl). -/
structure AdminOut where
  res : AdminRes
  events : List StoreEv
  crawl : CrawlState
deriving DecidableEq, Repr

/-- The crawl state of a request that never reaches the crawl loop. -/
def emptyCrawlState : CrawlState := ⟨[], [], [], [], []⟩

/-- The admin route's password gate:
`!password || password !== process.env.ADMIN_PASSWORD` fails the request. -/
def passwordOk (pw secret : Option String) : Bool :=
  match pw with
  | none => false
  | some p => !p.isEmpty && decide (secret = some p)

/-- The admin scrape route handler (`POST`): password gate (401), missing
slug/url gate (400), tenant resolution (500 on failure through the outer
catch), deletion of the tenant's embeddings then knowledge items, the crawl
loop, and the success payload with `pages_processed = createdItems.length`. -/
def adminPOST (req : AdminReq) (env : AdminEnv) : AdminOut :=
  if passwordOk req.password env.secret = false then
    ⟨.unauthorized, [], emptyCrawlState⟩
  else
    match req.slug, req.url with
    | some slug, some base =>
      if slug = "" then ⟨.badRequest, [], emptyCrawlState⟩
      else
        match env.tenants slug with
        | none => ⟨.serverError ("Tenant not found"), [.lookupTenant slug],
            emptyCrawlState⟩
        | some tenant =>
          let final := crawlAdmin env base
          ⟨.okRes tenant final.created.length final.created,
           [.lookupTenant slug, .deleteEmbeddings tenant.id,
            .deleteKnowledgeItems tenant.id],
           final⟩
    | _, _ => ⟨.badRequest, [], emptyCrawlState⟩

/-- The ingest script's page budget (`maxPages = 15`). -/
def maxPagesIngest : Nat := 15

/-- The environment of one ingest-script run: the network, and per
(page URL, chunk index) success of the knowledge-item insert, the embedding
call and the embedding insert. -/
structure IngestEnv where
  fetch : Url → Option FetchResult
  kiOk : Url → Nat → Bool
  embedOk : Url → Nat → Bool
  embInsOk : Url → Nat → Bool

/-- State of the ingest script's `crawlSite` loop: the visited set (of
fragment-normalized URLs, in insertion order) and the `toVisit` queue. -/
structure SiteState where
  visited : List Url
  toVisit : List Url
deriving DecidableEq, Repr

/-- `crawlSite`'s link pipeline for one page: crawlable raw hrefs, resolved,
fragment-normalized, and restricted to the start URL's hostname
(`isSameHost` compares hostnames only, not origins). -/
def crawlLinksIngest (links : List RawLink) (start : Url) : List Url :=
  (((links.filter (fun l => isCrawlableLink l.raw)).filterMap
    (fun l => l.resolved)).map Url.clearFrag).filter
      (fun x => decide (x.host = start.host))

/-- `crawlSite`'s enqueue loop: push each found link not yet visited and not
yet queued, as long as `visited.size + toVisit.length < maxPages`. -/
def enqueueIngest (visited : List Url) (tv : List Url) : List Url → List Url
  | [] => tv
  | l :: ls =>
    if !(decide (l ∈ visited)) && !(decide (l ∈ tv))
        && decide (visited.length + tv.length < maxPagesIngest) then
      enqueueIngest visited (tv ++ [l]) ls
    else enqueueIngest visited tv ls

/-- The ingest script's `crawlSite` loop, fuelled (one unit per iteration;
`ingestFuel` exceeds any possible iteration count, because at most
`maxPagesIngest` URLs are ever tracked at once and every pushed URL is
distinct from all tracked ones). -/
def crawlSiteGo (env : IngestEnv) (start : Url) : Nat → SiteState → SiteState
  | 0, s => s
  | f + 1, s =>
    match s.toVisit with
    | [] => s
    | current :: rest =>
      if maxPagesIngest ≤ s.visited.length then s
      else
        let norm := current.clearFrag
        if norm ∈ s.visited then crawlSiteGo env start f { s with toVisit := rest }
        else
          let s1 : SiteState := ⟨s.visited ++ [norm], rest⟩
          match env.fetch norm with
          | none => crawlSiteGo env start f s1
          | some pg =>
            if pg.ok = false then crawlSiteGo env start f s1
            else
              crawlSiteGo env start f
                ⟨s1.visited,
                 enqueueIngest s1.visited s1.toVisit (crawlLinksIngest pg.links start)⟩

/-- Fuel for the ingest crawl loop (see `crawlSiteGo`). -/
def ingestFuel : Nat := 300

/-- The ingest script's `crawlSite(startUrl, 15)`, returning the final loop
state; the crawl's result `Array.from(visited)` is its `visited` list. -/
def crawlSiteRun (env : IngestEnv) (start : Url) : SiteState :=
  crawlSiteGo env start ingestFuel ⟨[], [start]⟩

/-- What the ingest script has persisted: knowledge-item rows (page URL and
chunk content), embedding-row contents, and whether the run aborted (an
uncaught throw in `main`, which exits the process). -/
structure IngestTrace where
  kiRows : List (Url × List Char)
  embRows : List (List Char)
  aborted : Bool
deriving DecidableEq, Repr

/-- The ingest script's per-chunk loop for one page: insert the knowledge
item (`throw e1` on failure), call the embedding (`await embed(c)`, a throw
aborts), insert the embedding row (`throw e2` on failure).  Any failure
sets `aborted` and stops the whole run. -/
def ingestChunks (env : IngestEnv) (url : Url) :
    List (List Char) → Nat → IngestTrace → IngestTrace
  | [], _, tr => tr
  | c :: cs, i, tr =>
    if env.kiOk url i = false then { tr with aborted := true }
    else
      let tr1 := { tr with kiRows := tr.kiRows ++ [(url, c)] }
      if env.embedOk url i = false then { tr1 with aborted := true }
      else if env.embInsOk url i = false then { tr1 with aborted := true }
      else ingestChunks env url cs (i + 1) { tr1 with embRows := tr1.embRows ++ [c] }

/-- The ingest script's per-page loop in `main`: re-fetch each crawled URL
(`extractTextFromUrl`; a thrown fetch aborts the run, a non-ok response
yields empty text), skip pages with fewer than 20 characters, chunk the
text and run the per-chunk loop; an aborted chunk loop stops the remaining
pages. -/
def ingestPages (env : IngestEnv) : List Url → IngestTrace → IngestTrace
  | [], tr => tr
  | u :: us, tr =>
    match env.fetch u with
    | none => { tr with aborted := true }
    | some pg =>
      let raw := if pg.ok then pg.text else []
      if raw.length < 20 then ingestPages env us tr
      else
        let tr1 := ingestChunks env u (chunk raw) 0 tr
        if tr1.aborted then tr1 else ingestPages env us tr1

/-- The ingest script's `main` after tenant resolution: crawl the site,
then ingest each visited page. -/
def ingestMain (env : IngestEnv) (start : Url) : IngestTrace :=
  ingestPages env (crawlSiteRun env start).visited ⟨[], [], false⟩

/-- The invariant behind the admin crawler's bounds: the visited list has
no duplicates and at most `maxPagesAdmin` entries, and every visited or
queued URL is the seed or shares the seed's origin. -/
def adminInv (base : Url) (s : CrawlState) : Prop :=
  s.visited.Nodup ∧ s.visited.length ≤ maxPagesAdmin
    ∧ (∀ u ∈ s.visited, u = base ∨ u.origin = base.origin)
    ∧ (∀ u ∈ s.queue, u = base ∨ u.origin = base.origin)

/-- The invariant behind the ingest crawler's bounds: the visited list is
duplicate-free, within the page budget, and all its entries share the start
URL's hostname with cleared fragments; queued URLs are the raw start URL or
normalized same-host links. -/
def siteInv (start : Url) (s : SiteState) : Prop :=
  s.visited.Nodup ∧ s.visited.length ≤ maxPagesIngest
    ∧ (∀ u ∈ s.visited, u.host = start.host ∧ u.frag = "")
    ∧ (∀ u ∈ s.toVisit, u = start ∨ (u.host = start.host ∧ u.frag = ""))

/-- A seed URL with a fragment on an https origin. -/
def seedUrlFrag : Url := ⟨("https"), ("example.com"), ("/"), ("top")⟩

/-- A same-host link reached over plain http (different origin). -/
def httpLinkUrl : Url := ⟨("http"), ("example.com"), ("/a"), ("")⟩

/-- A two-page site whose seed links to the same host over plain http. -/
def mixedSchemeEnv : IngestEnv where
  fetch u :=
    if u = seedUrlFrag.clearFrag then
      some ⟨true, [], [⟨("http://example.com/a"), some httpLinkUrl⟩]⟩
    else if u = httpLinkUrl then some ⟨true, [], []⟩
    else none
  kiOk _ _ := true
  embedOk _ _ := true
  embInsOk _ _ := true

/-- Seed of the concrete two-page admin site fixture. -/
def adminBase : Url := ⟨("https"), ("shop.example"), ("/"), ("")⟩

/-- Second page of the concrete two-page admin site fixture. -/
def adminPage2 : Url := ⟨("https"), ("shop.example"), ("/b"), ("")⟩

/-- A two-page admin site whose seed links to one same-origin page, with
all store operations succeeding. -/
def adminSiteEnv : AdminEnv where
  secret := some ("pw")
  tenants s := if s = "muster" then some exTenant else none
  fetch u :=
    if u = adminBase then
      some ⟨true, List.replicate 300 ('x'), [⟨("/b"), some adminPage2⟩]⟩
    else if u = adminPage2 then some ⟨true, List.replicate 300 ('y'), []⟩
    else none
  kiOk _ := true
  embCreateOk _ := true
  embInsOk _ := true

/-- A request with no password at all. -/
def adminNoPwReq : AdminReq := ⟨none, some ("muster"), some adminBase⟩

/-- Whether a response's `pages_processed` field equals the length of its
`items` field (trivially true for non-success responses). -/
def pagesCountOk : AdminRes → Prop
  | .okRes _ n items => n = items.length
  | _ => True

/-- The invariant behind C10: a URL has a created item exactly when it has
been visited and fully processed (`goodPage`), and it has a knowledge-item
row exactly under the same condition. -/
def createdInv (env : AdminEnv) (s : CrawlState) : Prop :=
  (∀ u : Url, (∃ t, (u, t) ∈ s.created) ↔ (u ∈ s.visited ∧ goodPage env u = true))
    ∧ (∀ u : Url, (∃ c, (u, c) ∈ s.kiRows) ↔ (u ∈ s.visited ∧ goodPage env u = true))

/-- The invariant behind C9's admin part: every knowledge-item row holds its
page's text truncated to 12000 characters, every embedding row the same text
truncated to 8000. -/
def rowsInv (env : AdminEnv) (s : CrawlState) : Prop :=
  (∀ p ∈ s.kiRows, p.2 = (pageText env p.1).take 12000)
    ∧ (∀ p ∈ s.embRows, p.2 = (pageText env p.1).take 8000)

/-- The invariant behind C9's ingest part: when the run has not aborted the
embedding contents equal the knowledge-item contents; in general the
embedding contents are a prefix of the knowledge-item contents, at most one
entry short (the knowledge item whose embedding failed). -/
def traceSync (tr : IngestTrace) : Prop :=
  (tr.aborted = false → tr.embRows = tr.kiRows.map Prod.snd)
    ∧ tr.embRows <+: tr.kiRows.map Prod.snd
    ∧ (tr.kiRows.map Prod.snd).length ≤ tr.embRows.length + 1

/-- A one-page admin site whose page text has 8001 characters. -/
def bigPageEnv : AdminEnv where
  secret := some ("pw")
  tenants s := if s = "muster" then some exTenant else none
  fetch u := if u = adminBase then some ⟨true, List.replicate 8001 ('a'), []⟩
    else none
  kiOk _ := true
  embCreateOk _ := true
  embInsOk _ := true

/-- Rows with the given URL removed (to compare two runs that may differ at
one URL). -/
def filterOutUrl {α : Type} (u : Url) (rows : List (Url × α)) : List (Url × α) :=
  rows.filter (fun p => !(decide (p.1 = u)))

/-- Two crawl states that agree on the traversal and on all rows except
those of one URL. -/
def frameAgree (u : Url) (s1 s2 : CrawlState) : Prop :=
  s1.visited = s2.visited ∧ s1.queue = s2.queue
    ∧ filterOutUrl u s1.created = filterOutUrl u s2.created
    ∧ filterOutUrl u s1.kiRows = filterOutUrl u s2.kiRows
    ∧ filterOutUrl u s1.embRows = filterOutUrl u s2.embRows

/-- An ingest environment in which nothing fails: every fetch returns, and
every knowledge-item insert, embedding call and embedding insert succeeds. -/
def ingestAllOk (env : IngestEnv) : Prop :=
  (∀ u : Url, env.fetch u ≠ none) ∧ (∀ (u : Url) (i : Nat), env.kiOk u i = true)
    ∧ (∀ (u : Url) (i : Nat), env.embedOk u i = true)
    ∧ (∀ (u : Url) (i : Nat), env.embInsOk u i = true)

/-- The two-page admin site with the seed page's knowledge-item insert
failing. -/
def adminSeedKiFailEnv : AdminEnv :=
  { adminSiteEnv with kiOk := fun v => !(decide (v = adminBase)) }

/-- The two-page admin site with the second page's knowledge-item insert
failing. -/
def adminP2KiFailEnv : AdminEnv :=
  { adminSiteEnv with kiOk := fun v => !(decide (v = adminPage2)) }

/-- A two-page ingest site with total fetch and all-success oracles. -/
def ingestOkEnv : IngestEnv where
  fetch u :=
    if u = adminBase then
      some ⟨true, List.replicate 25 ('x'), [⟨("/b"), some adminPage2⟩]⟩
    else if u = adminPage2 then some ⟨true, List.replicate 25 ('y'), []⟩
    else some ⟨false, [], []⟩
  kiOk _ _ := true
  embedOk _ _ := true
  embInsOk _ _ := true

/-- The same two-page ingest site with every knowledge-item insert failing. -/
def ingestKiFailEnv : IngestEnv := { ingestOkEnv with kiOk := fun _ _ => false }

/-- Upper bound on the iterations the admin crawl loop can still take: one
per queued URL, plus (while the seed is unprocessed) one for the seed and at
most ten for the links its processing can enqueue. -/
def adminFuelNeed (base : Url) (s : CrawlState) : Nat :=
  s.queue.length + (if base ∈ s.visited then 0 else 11)

/-- Upper bound on the iterations the ingest crawl loop can still take: one
per queued URL, plus, for each page the budget still allows, one for the
page and at most fifteen for the links it can enqueue (the enqueue guard
caps `visited.size + toVisit.length` at the page budget). -/
def siteFuelNeed (s : SiteState) : Nat :=
  s.toVisit.length + 16 * (maxPagesIngest - s.visited.length)

/-- The soft threshold constant written in source form. -/
theorem minSimilaritySoft_eq : minSimilaritySoft = 0.20 := by
  rw [minSimilaritySoft, Rat.mkRat_eq_div]; norm_num

/-- The hard threshold constant written in source form. -/
theorem minSimilarityHard_eq : minSimilarityHard = 0.75 := by
  rw [minSimilarityHard, Rat.mkRat_eq_div]; norm_num

/-- Inserting an element permutes consing it. -/
theorem insertDesc_perm (m : RagMatch) :
    ∀ l, List.Perm (insertDesc m l) (m :: l)
  | [] => by simp [insertDesc]
  | y :: ys => by
    by_cases h : simOf y ≤ simOf m
    · simp [insertDesc, h]
    · simp only [insertDesc, if_neg h]
      exact ((insertDesc_perm m ys).cons y).trans (List.Perm.swap m y ys)

/-- The route's stable sort permutes its input. -/
theorem sortDesc_perm : ∀ l : List RagMatch, List.Perm (sortDesc l) l
  | [] => by simp [sortDesc]
  | x :: xs => by
    have h : sortDesc (x :: xs) = insertDesc x (sortDesc xs) := rfl
    rw [h]
    exact (insertDesc_perm x (sortDesc xs)).trans ((sortDesc_perm xs).cons x)

/-- Inserting into a descending-sorted list keeps it descending-sorted. -/
theorem insertDesc_sorted {m : RagMatch} {l : List RagMatch}
    (h : List.Sorted simGE l) : List.Sorted simGE (insertDesc m l) := by
  induction l with
  | nil => simp [insertDesc]
  | cons y ys ih =>
    rw [List.sorted_cons] at h
    by_cases hc : simOf y ≤ simOf m
    · simp only [insertDesc, if_pos hc]
      rw [List.sorted_cons]
      refine ⟨?_, List.sorted_cons.mpr h⟩
      intro b hb
      rcases List.mem_cons.mp hb with rfl | hb2
      · exact hc
      · exact le_trans (h.1 b hb2) hc
    · simp only [insertDesc, if_neg hc]
      rw [List.sorted_cons]
      refine ⟨?_, ih h.2⟩
      intro b hb
      have hb2 := (insertDesc_perm m ys).mem_iff.mp hb
      rcases List.mem_cons.mp hb2 with rfl | hb3
      · exact le_of_lt (lt_of_not_le hc)
      · exact h.1 b hb3

/-- The route's sort output is descending-sorted. -/
theorem sortDesc_sorted : ∀ l : List RagMatch, List.Sorted simGE (sortDesc l)
  | [] => by simp [sortDesc]
  | x :: xs => by
    have h : sortDesc (x :: xs) = insertDesc x (sortDesc xs) := rfl
    rw [h]
    exact insertDesc_sorted (sortDesc_sorted xs)

/-- Sorting a descending-sorted list leaves it unchanged (this is where
stability matters: re-sorting the already sorted `above` list is a no-op). -/
theorem sortDesc_of_sorted {l : List RagMatch} (h : List.Sorted simGE l) :
    sortDesc l = l := by
  induction l with
  | nil => rfl
  | cons x xs ih =>
    rw [List.sorted_cons] at h
    have h2 : sortDesc (x :: xs) = insertDesc x (sortDesc xs) := rfl
    rw [h2, ih h.2]
    cases xs with
    | nil => rfl
    | cons y ys =>
      have hxy : simOf y ≤ simOf x := h.1 y (by simp)
      simp [insertDesc, hxy]

/-- When some match clears the threshold, the route serves the sorted,
capped above-threshold list. -/
theorem rankMatches_above_nonempty {t : ℚ} {k : Nat} {scored : List RagMatch}
    (h : ∃ m ∈ scored, t ≤ simOf m) :
    rankMatches t k scored
      = (sortDesc (scored.filter (fun m => decide (t ≤ simOf m)))).take k := by
  obtain ⟨m, hm, hmt⟩ := h
  have hmem : m ∈ scored.filter (fun m => decide (t ≤ simOf m)) := by
    rw [List.mem_filter]
    exact ⟨hm, by simpa using hmt⟩
  have hlen : 0 < (sortDesc (scored.filter (fun m => decide (t ≤ simOf m)))).length := by
    rw [(sortDesc_perm _).length_eq]
    exact List.length_pos.mpr (List.ne_nil_of_mem hmem)
  simp only [rankMatches, if_pos hlen]
  rw [sortDesc_of_sorted (sortDesc_sorted _)]

/-- When no match clears the threshold, the route serves the whole scored
list, sorted and capped (the best-available fallback). -/
theorem rankMatches_none_above {t : ℚ} {k : Nat} {scored : List RagMatch}
    (h : ∀ m ∈ scored, simOf m < t) :
    rankMatches t k scored = (sortDesc scored).take k := by
  have hfil : scored.filter (fun m => decide (t ≤ simOf m)) = [] := by
    rw [List.filter_eq_nil_iff]
    intro m hm
    simpa using not_le.mpr (h m hm)
  simp only [rankMatches, hfil]
  have h0 : sortDesc ([] : List RagMatch) = [] := rfl
  rw [h0]
  simp

/-- C1: for matches with at least one usable entry, the ranker returns the
above-threshold matches sorted descending and capped to K when any match
clears the threshold, and otherwise all usable matches sorted descending and
capped to K; the output is always descending-sorted of length at most K, and
on the spec's examples threshold 0.5 yields scores `[0.9]` from
`[0.9, 0.3, 0.1]` and `[0.3, 0.2]` from `[0.3, 0.2]`. -/
theorem retrieval_ranker_soft_policy (t : ℚ) (k : Nat) (ms : List RagMatch)
    (_hne : ms.filter usableMatch ≠ []) :
    ((∃ m ∈ ms.filter usableMatch, t ≤ simOf m) →
      rankMatches t k (ms.filter usableMatch)
        = (sortDesc ((ms.filter usableMatch).filter
            (fun m => decide (t ≤ simOf m)))).take k)
    ∧ ((∀ m ∈ ms.filter usableMatch, simOf m < t) →
      rankMatches t k (ms.filter usableMatch)
        = (sortDesc (ms.filter usableMatch)).take k)
    ∧ List.Sorted simGE (rankMatches t k (ms.filter usableMatch))
    ∧ (rankMatches t k (ms.filter usableMatch)).length ≤ k
    ∧ (rankMatches (0.5) 4 rankExample1).map simOf = [(0.9 : ℚ)]
    ∧ (rankMatches (0.5) 4 rankExample2).map simOf = [(0.3 : ℚ), (0.2 : ℚ)] := by
  have e05 : (0.5 : ℚ) = mkRat 1 2 := by rw [Rat.mkRat_eq_div]; norm_num
  have e09 : (0.9 : ℚ) = mkRat 9 10 := by rw [Rat.mkRat_eq_div]; norm_num
  have e03 : (0.3 : ℚ) = mkRat 3 10 := by rw [Rat.mkRat_eq_div]; norm_num
  have e02 : (0.2 : ℚ) = mkRat 1 5 := by rw [Rat.mkRat_eq_div]; norm_num
  refine ⟨fun h => rankMatches_above_nonempty h,
          fun h => rankMatches_none_above h, ?_, ?_, ?_, ?_⟩
  · simp only [rankMatches]
    exact (sortDesc_sorted _).sublist (List.take_sublist _ _)
  · simp only [rankMatches]
    exact le_trans (List.length_take_le _ _) le_rfl
  · rw [e05, e09]; decide
  · rw [e05, e03, e02]; decide

/-- Witness for C1 at the spec's first example input. -/
theorem retrieval_ranker_soft_policy_witness :
    rankExample1.filter usableMatch ≠ [] ∧
      (rankMatches (mkRat 1 2) 4 (rankExample1.filter usableMatch)).length ≤ 4 :=
  ⟨by decide,
   (retrieval_ranker_soft_policy (mkRat 1 2) 4 rankExample1 (by decide)).2.2.2.1⟩

/-- C2 (amended): in the soft-threshold chat route, for a non-debug request
that reaches the retrieval stage, zero usable matches make the handler reply
with the tenant's fallback message, `from_kb = false`, and no generation
call. -/
theorem chat_soft_no_knowledge_fallback (req : ChatRequest) (env : ChatEnv)
    (slug : String) (tenant : TenantRec)
    (hmsg : messageOf req ≠ "")
    (hslug : slugChainOf req = some slug) (hs : slug ≠ "")
    (ht : env.tenants slug = some tenant)
    (hdebug : req.debug = false)
    (hscored : (env.rag.getD []).filter usableMatch = []) :
    chatSoftPOST req env
      = (.reply ((env.settings tenant.id).getD defaultSettings).fallback_message
          ((env.settings tenant.id).getD defaultSettings).welcome_message
          (some false),
        ⟨[slug], false, []⟩) := by
  simp only [chatSoftPOST, hslug, ht]
  rw [if_neg hmsg, if_neg hs]
  simp [hdebug, hscored]

/-- Witness for C2's amended theorem at a concrete zero-match request. -/
theorem chat_soft_no_knowledge_fallback_witness :
    messageOf noKnowReq ≠ "" ∧
      chatSoftPOST noKnowReq noKnowEnv
        = (.reply defaultSettings.fallback_message defaultSettings.welcome_message
            (some false), ⟨[("muster")], false, []⟩) :=
  ⟨by decide,
   chat_soft_no_knowledge_fallback noKnowReq noKnowEnv ("muster") exTenant
     (by decide) (by decide) (by decide) (by decide) rfl (by decide)⟩

/-- C2 counterexample: the legacy chat route, on a request whose vector
search returns zero matches, still calls the generation capability and
returns its answer rather than the fallback message. -/
theorem chat_legacy_no_knowledge_cex :
    noKnowEnv.rag = some ([] : List RagMatch)
    ∧ (chatLegacyPOST noKnowReq noKnowEnv).2.genCalled = true
    ∧ (chatLegacyPOST noKnowReq noKnowEnv).1
        = .reply ("generated answer") defaultSettings.welcome_message none := by
  decide

/-- C5 (amended): every reply (generated answer or no-knowledge fallback) of
the soft-threshold and of the hard-threshold chat route carries a `from_kb`
field along with `text` and `welcome_message`. -/
theorem chat_reply_has_from_kb (req : ChatRequest) (env : ChatEnv)
    (text welcome : String) (fk : Option Bool) :
    ((chatSoftPOST req env).1 = .reply text welcome fk → fk.isSome = true)
    ∧ ((chatHardPOST req env).1 = .reply text welcome fk → fk.isSome = true) := by
  constructor
  · intro h
    simp only [chatSoftPOST] at h
    repeat' split at h
    all_goals try simp_all
    all_goals (obtain ⟨-, -, rfl⟩ := h; rfl)
  · intro h
    simp only [chatHardPOST] at h
    repeat' split at h
    all_goals try simp_all
    all_goals (obtain ⟨-, -, rfl⟩ := h; rfl)

/-- Witness for C5's amended theorem at a concrete generated reply. -/
theorem chat_reply_has_from_kb_witness :
    (chatSoftPOST noKnowReq replyEnv).1
      = .reply ("an answer") defaultSettings.welcome_message (some true)
    ∧ (some true : Option Bool).isSome = true :=
  ⟨by decide,
   (chat_reply_has_from_kb noKnowReq replyEnv ("an answer")
     defaultSettings.welcome_message (some true)).1 (by decide)⟩

/-- C5 counterexample: the legacy chat route's generated reply carries no
`from_kb` field. -/
theorem chat_legacy_reply_missing_from_kb_cex :
    (chatLegacyPOST noKnowReq noKnowEnv).1
      = .reply ("generated answer") defaultSettings.welcome_message none
    ∧ (none : Option Bool).isSome = false := by decide

/-- C6 (amended): in the soft-threshold and hard-threshold chat routes an
absent message yields status 400, and an absent slug (body, query and
header) yields status 400 with no tenant lookup performed. -/
theorem chat_missing_message_or_slug_400 (req : ChatRequest) (env : ChatEnv) :
    ((req.bodyMessage = none ∧ req.queryMessage = none) →
      statusOf (chatSoftPOST req env).1 = 400
        ∧ statusOf (chatHardPOST req env).1 = 400)
    ∧ ((req.bodySlug = none ∧ req.querySlug = none ∧ req.headerSlug = none) →
      (statusOf (chatSoftPOST req env).1 = 400
        ∧ (chatSoftPOST req env).2.tenantLookups = [])
      ∧ (statusOf (chatHardPOST req env).1 = 400
        ∧ (chatHardPOST req env).2.tenantLookups = [])) := by
  constructor
  · rintro ⟨h1, h2⟩
    have hm : messageOf req = "" := by simp [messageOf, jsCoalesce, h1, h2]
    constructor <;> simp [chatSoftPOST, chatHardPOST, hm, statusOf]
  · rintro ⟨h1, h2, h3⟩
    have hs : slugChainOf req = none := by
      simp [slugChainOf, jsCoalesce, h1, h2, h3]
    by_cases hm : messageOf req = ""
    · refine ⟨⟨?_, ?_⟩, ?_, ?_⟩ <;>
        simp [chatSoftPOST, chatHardPOST, hm, statusOf]
    · refine ⟨⟨?_, ?_⟩, ?_, ?_⟩ <;>
        simp [chatSoftPOST, chatHardPOST, hm, hs, statusOf]

/-- Witness for C6's amended theorem at a concrete message-less request. -/
theorem chat_missing_message_or_slug_400_witness :
    (noMsgReq.bodyMessage = none ∧ noMsgReq.queryMessage = none)
    ∧ statusOf (chatSoftPOST noMsgReq noKnowEnv).1 = 400 :=
  ⟨⟨rfl, rfl⟩,
   ((chat_missing_message_or_slug_400 noMsgReq noKnowEnv).1 ⟨rfl, rfl⟩).1⟩

/-- C6 counterexample: the legacy chat route, on a request with no slug in
body, query or header, substitutes the demo slug, resolves that tenant and
answers with status 200 instead of 400. -/
theorem chat_legacy_missing_slug_cex :
    noSlugReq.bodySlug = none ∧ noSlugReq.querySlug = none
    ∧ noSlugReq.headerSlug = none
    ∧ statusOf (chatLegacyPOST noSlugReq kundenEnv).1 = 200
    ∧ (chatLegacyPOST noSlugReq kundenEnv).2.tenantLookups
        = [("kunden-muster")] := by decide

/-- Collapsing never lengthens the text. -/
theorem collapseAux_length_le : ∀ (b : Bool) (l : List Char),
    (collapseAux b l).length ≤ l.length
  | _, [] => le_refl _
  | b, c :: cs => by
    by_cases h : c.isWhitespace
    · by_cases hb : b
      · simp only [collapseAux, if_pos h, hb, if_pos]
        exact le_trans (collapseAux_length_le true cs) (Nat.le_succ _)
      · simp only [collapseAux, if_pos h, hb]
        simpa using collapseAux_length_le true cs
    · simp only [collapseAux, if_neg h, List.length_cons]
      simpa using collapseAux_length_le false cs

/-- Collapsing keeps at least one non-whitespace character if there was one. -/
theorem collapseAux_exists_nonws : ∀ (b : Bool) (l : List Char),
    (∃ c ∈ l, ¬ c.isWhitespace) → ∃ c ∈ collapseAux b l, ¬ c.isWhitespace
  | _, [], h => by simp at h
  | b, c :: cs, h => by
    obtain ⟨w, hw, hwns⟩ := h
    by_cases hc : c.isWhitespace
    · have hwcs : w ∈ cs := by
        rcases List.mem_cons.mp hw with rfl | h2
        · exact absurd hc hwns
        · exact h2
      have ih := collapseAux_exists_nonws true cs ⟨w, hwcs, hwns⟩
      obtain ⟨v, hv, hvns⟩ := ih
      by_cases hb : b
      · refine ⟨v, ?_, hvns⟩
        simpa [collapseAux, hc, hb] using hv
      · refine ⟨v, ?_, hvns⟩
        simp [collapseAux, hc, hb]
        exact Or.inr hv
    · refine ⟨c, ?_, hc⟩
      simp [collapseAux, hc]

/-- Trimming never lengthens the text. -/
theorem trimChars_length_le (l : List Char) : (trimChars l).length ≤ l.length := by
  unfold trimChars
  calc ((l.dropWhile Char.isWhitespace).reverse.dropWhile
          Char.isWhitespace).reverse.length
      = ((l.dropWhile Char.isWhitespace).reverse.dropWhile
          Char.isWhitespace).length := by rw [List.length_reverse]
    _ ≤ (l.dropWhile Char.isWhitespace).reverse.length :=
        (List.dropWhile_suffix _).sublist.length_le
    _ = (l.dropWhile Char.isWhitespace).length := by rw [List.length_reverse]
    _ ≤ l.length := (List.dropWhile_suffix _).sublist.length_le

/-- Dropping a whitespace head keeps any non-whitespace witness. -/
theorem dropWhile_ws_exists : ∀ l : List Char,
    (∃ c ∈ l, ¬ c.isWhitespace) →
      ∃ c ∈ l.dropWhile Char.isWhitespace, ¬ c.isWhitespace
  | [], h => by simp at h
  | x :: xs, h => by
    obtain ⟨w, hw, hwns⟩ := h
    by_cases hx : x.isWhitespace
    · have hwxs : w ∈ xs := by
        rcases List.mem_cons.mp hw with rfl | h2
        · exact absurd hx hwns
        · exact h2
      have ih := dropWhile_ws_exists xs ⟨w, hwxs, hwns⟩
      simpa [List.dropWhile_cons, hx] using ih
    · refine ⟨w, ?_, hwns⟩
      simpa [List.dropWhile_cons, hx] using hw

/-- A text containing a non-whitespace character trims to a non-empty text. -/
theorem trimChars_ne_nil {l : List Char} (h : ∃ c ∈ l, ¬ c.isWhitespace) :
    trimChars l ≠ [] := by
  unfold trimChars
  have h1 := dropWhile_ws_exists l h
  obtain ⟨c, hc, hcns⟩ := h1
  have h2 : ∃ d ∈ (l.dropWhile Char.isWhitespace).reverse, ¬ d.isWhitespace :=
    ⟨c, List.mem_reverse.mpr hc, hcns⟩
  obtain ⟨d, hd, hdns⟩ := dropWhile_ws_exists _ h2
  intro hnil
  rw [List.reverse_eq_nil_iff] at hnil
  rw [hnil] at hd
  exact absurd hd (List.not_mem_nil d)

/-- Every raw window has at most `chunkSize` characters. -/
theorem chunkGoF_length_le : ∀ (f : Nat) (l : List Char),
    ∀ r ∈ chunkGoF f l, r.length ≤ chunkSize
  | 0, _ => by simp [chunkGoF]
  | _ + 1, [] => by simp [chunkGoF]
  | f + 1, c :: cs => by
    intro r hr
    rcases List.mem_cons.mp hr with rfl | h2
    · exact List.length_take_le _ _
    · exact chunkGoF_length_le f _ r h2

/-- With enough fuel, a text containing a non-whitespace character yields
some raw window containing one: the window starting at the last stride
position at or before that character covers it. -/
theorem chunkGoF_exists_nonws : ∀ (f : Nat) (l : List Char),
    l.length ≤ f → (∃ c ∈ l, ¬ c.isWhitespace) →
      ∃ r ∈ chunkGoF f l, ∃ c ∈ r, ¬ c.isWhitespace := by
  intro f
  induction f with
  | zero =>
    intro l hl h
    obtain ⟨w, hw, _⟩ := h
    rw [Nat.le_zero, List.length_eq_zero] at hl
    rw [hl] at hw
    exact absurd hw (List.not_mem_nil w)
  | succ f ih =>
    intro l hl h
    obtain ⟨w, hw, hwns⟩ := h
    cases l with
    | nil => exact absurd hw (List.not_mem_nil w)
    | cons c cs =>
      have hsplit : w ∈ (c :: cs).take chunkSize ++ (c :: cs).drop chunkSize := by
        rw [List.take_append_drop]
        exact hw
      rcases List.mem_append.mp hsplit with hin | hout
      · exact ⟨(c :: cs).take chunkSize, by simp [chunkGoF], w, hin, hwns⟩
      · have hdd : (c :: cs).drop chunkSize
            = ((c :: cs).drop chunkStep).drop (chunkSize - chunkStep) := by
          rw [List.drop_drop]
          have harith : chunkStep + (chunkSize - chunkStep) = chunkSize := by
            simp [chunkSize, chunkStep, chunkOverlap]
          rw [harith]
        rw [hdd] at hout
        have hmem : w ∈ (c :: cs).drop chunkStep := List.mem_of_mem_drop hout
        have hlen : ((c :: cs).drop chunkStep).length ≤ f := by
          rw [List.length_drop]
          have hpos : 0 < chunkStep := by simp [chunkStep, chunkSize, chunkOverlap]
          have := hl
          simp only [List.length_cons] at this
          omega
        obtain ⟨r, hr, hcw⟩ := ih _ hlen ⟨w, hmem, hwns⟩
        exact ⟨r, by simp [chunkGoF, hr], hcw⟩

/-- C4 (amended): with window 800 and overlap 150, the chunker returns at
least one chunk for every input containing a non-whitespace character
(whitespace-only inputs, though non-empty, produce no chunk because
`filter(Boolean)` drops chunks that trim to the empty string), and every
returned chunk is non-empty of length at most the window size.  Being a pure
function of its input, the model returns the same chunks on every run by
construction. -/
theorem chunker_windows_nonempty_bounded (text : List Char) :
    ((∃ c ∈ text, ¬ c.isWhitespace) → chunk text ≠ [])
    ∧ (∀ s ∈ chunk text, s ≠ [] ∧ s.length ≤ chunkSize) := by
  constructor
  · intro h
    obtain ⟨r, hr, hrw⟩ := chunkGoF_exists_nonws text.length text le_rfl h
    have hcol := collapseAux_exists_nonws false r hrw
    have htrim : trimChars (collapseWs r) ≠ [] := trimChars_ne_nil hcol
    have hmem : trimChars (collapseWs r) ∈ chunk text := by
      unfold chunk
      rw [List.mem_filter]
      refine ⟨List.mem_map_of_mem _ hr, ?_⟩
      simpa [List.isEmpty_iff] using htrim
    exact List.ne_nil_of_mem hmem
  · intro s hs
    unfold chunk at hs
    rw [List.mem_filter] at hs
    obtain ⟨hmap, hne⟩ := hs
    obtain ⟨r, hr, rfl⟩ := List.mem_map.mp hmap
    constructor
    · simpa [List.isEmpty_iff] using hne
    · calc (trimChars (collapseWs r)).length
          ≤ (collapseWs r).length := trimChars_length_le _
        _ ≤ r.length := collapseAux_length_le false r
        _ ≤ chunkSize := chunkGoF_length_le _ _ r hr

/-- Witness for C4's amended theorem on a short concrete text. -/
theorem chunker_windows_nonempty_bounded_witness :
    (∃ c ∈ ("hello").data, ¬ c.isWhitespace) ∧ chunk (("hello").data) ≠ [] :=
  ⟨⟨'h', by decide, by decide⟩,
   (chunker_windows_nonempty_bounded (("hello").data)).1 ⟨'h', by decide, by decide⟩⟩

/-- C4 counterexample: a single space is a non-empty input on which the
chunker returns no chunk at all. -/
theorem chunker_whitespace_only_cex :
    (" ").data ≠ [] ∧ chunk ((" ").data) = [] := by decide

/-- A fresh-page step marks exactly the popped URL visited. -/
theorem crawlAdminStep_visited (env : AdminEnv) (base current : Url)
    (rest : List Url) (s : CrawlState) :
    (crawlAdminStep env base current rest s).visited = s.visited ++ [current] := by
  unfold crawlAdminStep
  cases hf : env.fetch current with
  | none => rfl
  | some pg =>
    by_cases hok : pg.ok = false
    · simp [hok]
    · by_cases hlen : pg.text.length < 200
      · simp [hok, hlen]
      · by_cases hki : env.kiOk current = false
        · simp [hok, hlen, hki]
        · simp [hok, hlen, hki, apply_ite CrawlState.visited]

/-- A fresh-page step records exactly one created item when the page is
fully processed, and none otherwise. -/
theorem crawlAdminStep_created (env : AdminEnv) (base current : Url)
    (rest : List Url) (s : CrawlState) :
    (crawlAdminStep env base current rest s).created
      = s.created ++ (if goodPage env current = true then
          [(current, titleFor base current)] else []) := by
  unfold crawlAdminStep goodPage
  cases hf : env.fetch current with
  | none => simp
  | some pg =>
    by_cases hok : pg.ok = false
    · simp [hok]
    · by_cases hlen : pg.text.length < 200
      · simp [hok, hlen, Nat.not_le.mpr hlen]
      · by_cases hki : env.kiOk current = false
        · simp [hok, hlen, hki]
        · simp [hok, hlen, hki, Nat.not_lt.mp hlen, Bool.ne_false_iff.mp hok,
            Bool.ne_false_iff.mp hki, apply_ite CrawlState.created]

/-- A fresh-page step inserts exactly one knowledge-item row (the page text
truncated to 12000 characters) when the page is fully processed. -/
theorem crawlAdminStep_kiRows (env : AdminEnv) (base current : Url)
    (rest : List Url) (s : CrawlState) :
    (crawlAdminStep env base current rest s).kiRows
      = s.kiRows ++ (if goodPage env current = true then
          [(current, (pageText env current).take 12000)] else []) := by
  unfold crawlAdminStep goodPage pageText
  cases hf : env.fetch current with
  | none => simp
  | some pg =>
    by_cases hok : pg.ok = false
    · simp [hok]
    · by_cases hlen : pg.text.length < 200
      · simp [hok, hlen, Nat.not_le.mpr hlen]
      · by_cases hki : env.kiOk current = false
        · simp [hok, hlen, hki]
        · simp [hok, hlen, hki, Nat.not_lt.mp hlen, Bool.ne_false_iff.mp hok,
            Bool.ne_false_iff.mp hki, apply_ite CrawlState.kiRows]

/-- A fresh-page step inserts exactly one embedding row (the page text
truncated to 8000 characters) when the page is fully processed and both the
embedding call and the embedding insert succeed. -/
theorem crawlAdminStep_embRows (env : AdminEnv) (base current : Url)
    (rest : List Url) (s : CrawlState) :
    (crawlAdminStep env base current rest s).embRows
      = s.embRows ++ (if (goodPage env current && env.embCreateOk current
            && env.embInsOk current) = true then
          [(current, (pageText env current).take 8000)] else []) := by
  unfold crawlAdminStep goodPage pageText
  cases hf : env.fetch current with
  | none => simp
  | some pg =>
    by_cases hok : pg.ok = false
    · simp [hok]
    · by_cases hlen : pg.text.length < 200
      · simp [hok, hlen, Nat.not_le.mpr hlen]
      · by_cases hki : env.kiOk current = false
        · simp [hok, hlen, hki]
        · by_cases hec : env.embCreateOk current <;>
            by_cases hei : env.embInsOk current <;>
              simp [hok, hlen, hki, hec, hei, Nat.not_lt.mp hlen,
                Bool.ne_false_iff.mp hok, Bool.ne_false_iff.mp hki,
                apply_ite CrawlState.embRows]

/-- A fresh-page step extends the queue by the seed page's surviving links
exactly when the popped URL is the seed and the page was fully processed. -/
theorem crawlAdminStep_queue (env : AdminEnv) (base current : Url)
    (rest : List Url) (s : CrawlState) :
    (crawlAdminStep env base current rest s).queue
      = rest ++ (if current = base ∧ goodPage env current = true then
          ((extractLinks (pageLinks env current) base).take 10).filter
            (fun l => !(decide (l ∈ s.visited ++ [current])))
        else []) := by
  unfold crawlAdminStep goodPage pageLinks
  cases hf : env.fetch current with
  | none => simp
  | some pg =>
    by_cases hok : pg.ok = false
    · simp [hok]
    · by_cases hlen : pg.text.length < 200
      · simp [hok, hlen, Nat.not_le.mpr hlen]
      · by_cases hki : env.kiOk current = false
        · simp [hok, hlen, hki]
        · rcases eq_or_ne current base with hbase | hbase
          · subst hbase
            simp [hok, hlen, hki, Nat.not_lt.mp hlen, Bool.ne_false_iff.mp hok,
              Bool.ne_false_iff.mp hki, apply_ite CrawlState.queue,
              apply_ite CrawlState.visited]
          · simp [hok, hlen, hki, hbase, apply_ite CrawlState.queue]

/-- `Array.from(new Set(...))` returns a subset of the original hrefs. -/
theorem dedupFirstAux_subset : ∀ (seen l : List Url), dedupFirstAux seen l ⊆ l
  | _, [] => by simp [dedupFirstAux]
  | seen, x :: xs => by
    by_cases h : x ∈ seen
    · simp only [dedupFirstAux, if_pos h]
      exact (dedupFirstAux_subset seen xs).trans
        (fun a ha => List.mem_cons_of_mem _ ha)
    · simp only [dedupFirstAux, if_neg h]
      intro a ha
      rcases List.mem_cons.mp ha with rfl | ha2
      · exact List.mem_cons_self _ _
      · exact List.mem_cons_of_mem _ (dedupFirstAux_subset _ xs ha2)

/-- A kept admin href has the base's origin. -/
theorem keepAdminHref_origin {base : Url} {l : RawLink} {u : Url}
    (h : keepAdminHref base l = some u) : u.origin = base.origin := by
  unfold keepAdminHref at h
  repeat' split at h
  all_goals simp_all

/-- Every URL produced by the admin route's link extractor has the base's
origin. -/
theorem extractLinks_origin {links : List RawLink} {base u : Url}
    (h : u ∈ extractLinks links base) : u.origin = base.origin := by
  unfold extractLinks at h
  have h2 := dedupFirstAux_subset _ _ h
  obtain ⟨l, _, hl⟩ := List.mem_filterMap.mp h2
  exact keepAdminHref_origin hl

/-- The admin crawl loop only grows the visited list. -/
theorem crawlAdminGo_visited_mono (env : AdminEnv) (base : Url) :
    ∀ (f : Nat) (s : CrawlState),
      s.visited ⊆ (crawlAdminGo env base f s).visited := by
  intro f
  induction f with
  | zero => intro s a ha; simpa [crawlAdminGo] using ha
  | succ f ih =>
    intro s
    cases hq : s.queue with
    | nil => simp [crawlAdminGo, hq]
    | cons current rest =>
      by_cases hmax : maxPagesAdmin ≤ s.visited.length
      · simp [crawlAdminGo, hq, hmax]
      · by_cases hvis : current ∈ s.visited
        · have h2 : crawlAdminGo env base (f + 1) s
              = crawlAdminGo env base f { s with queue := rest } := by
            simp [crawlAdminGo, hq, hmax, hvis]
          rw [h2]
          exact ih { s with queue := rest }
        · have h2 : crawlAdminGo env base (f + 1) s
              = crawlAdminGo env base f (crawlAdminStep env base current rest s) := by
            simp [crawlAdminGo, hq, hmax, hvis]
          rw [h2]
          intro a ha
          refine ih _ ?_
          rw [crawlAdminStep_visited]
          exact List.mem_append_left _ ha

/-- The admin crawl loop preserves `adminInv`. -/
theorem crawlAdminGo_inv (env : AdminEnv) (base : Url) :
    ∀ (f : Nat) (s : CrawlState),
      adminInv base s → adminInv base (crawlAdminGo env base f s) := by
  intro f
  induction f with
  | zero => intro s h; simpa [crawlAdminGo] using h
  | succ f ih =>
    intro s h
    obtain ⟨hnd, hlen, hvo, hqo⟩ := h
    cases hq : s.queue with
    | nil => simpa [crawlAdminGo, hq] using ⟨hnd, hlen, hvo, hqo⟩
    | cons current rest =>
      by_cases hmax : maxPagesAdmin ≤ s.visited.length
      · simpa [crawlAdminGo, hq, hmax] using ⟨hnd, hlen, hvo, hqo⟩
      · by_cases hvis : current ∈ s.visited
        · have h2 : crawlAdminGo env base (f + 1) s
              = crawlAdminGo env base f { s with queue := rest } := by
            simp [crawlAdminGo, hq, hmax, hvis]
          rw [h2]
          refine ih _ ⟨hnd, hlen, hvo, ?_⟩
          intro u hu
          exact hqo u (by rw [hq]; exact List.mem_cons_of_mem _ hu)
        · have h2 : crawlAdminGo env base (f + 1) s
              = crawlAdminGo env base f (crawlAdminStep env base current rest s) := by
            simp [crawlAdminGo, hq, hmax, hvis]
          rw [h2]
          refine ih _ ?_
          have hcur : current = base ∨ current.origin = base.origin :=
            hqo current (by rw [hq]; exact List.mem_cons_self _ _)
          refine ⟨?_, ?_, ?_, ?_⟩
          · rw [crawlAdminStep_visited]
            simp [List.nodup_append, hnd, hvis]
          · rw [crawlAdminStep_visited, List.length_append]
            have := Nat.lt_of_not_le hmax
            simp only [List.length_singleton]
            omega
          · rw [crawlAdminStep_visited]
            intro u hu
            rcases List.mem_append.mp hu with h1 | h1
            · exact hvo u h1
            · rcases List.mem_singleton.mp h1 with rfl
              exact hcur
          · rw [crawlAdminStep_queue]
            intro u hu
            rcases List.mem_append.mp hu with h1 | h1
            · exact hqo u (by rw [hq]; exact List.mem_cons_of_mem _ h1)
            · by_cases hcond : current = base ∧ goodPage env current = true
              · rw [if_pos hcond] at h1
                have h3 := List.mem_of_mem_filter h1
                have h4 := List.mem_of_mem_take h3
                exact Or.inr (extractLinks_origin h4)
              · rw [if_neg hcond] at h1
                exact absurd h1 (List.not_mem_nil u)

/-- The seed page is visited: the first loop iteration pops and visits it. -/
theorem crawlAdmin_base_mem (env : AdminEnv) (base : Url) :
    base ∈ (crawlAdmin env base).visited := by
  have hfuel : adminFuel = 99 + 1 := rfl
  have h0 : ∀ g : Nat, crawlAdminGo env base (g + 1) (initCrawlState base)
      = crawlAdminGo env base g (crawlAdminStep env base base [] (initCrawlState base)) := by
    intro g
    simp [crawlAdminGo, initCrawlState, maxPagesAdmin]
  rw [crawlAdmin, hfuel, h0 99]
  refine crawlAdminGo_visited_mono env base 99 _ ?_
  rw [crawlAdminStep_visited]
  simp [initCrawlState]

/-- Everything the enqueue loop returns was already queued or found. -/
theorem enqueueIngest_mem : ∀ (vis tv ls : List Url) (u : Url),
    u ∈ enqueueIngest vis tv ls → u ∈ tv ∨ u ∈ ls
  | _, _, [], _, h => Or.inl h
  | vis, tv, l :: ls, u, h => by
    by_cases hc : (!(decide (l ∈ vis)) && !(decide (l ∈ tv))
        && decide (vis.length + tv.length < maxPagesIngest)) = true
    · rw [enqueueIngest, if_pos hc] at h
      rcases enqueueIngest_mem vis (tv ++ [l]) ls u h with h2 | h2
      · rcases List.mem_append.mp h2 with h3 | h3
        · exact Or.inl h3
        · exact Or.inr (by rw [List.mem_singleton.mp h3]; exact List.mem_cons_self _ _)
      · exact Or.inr (List.mem_cons_of_mem _ h2)
    · rw [enqueueIngest, if_neg hc] at h
      rcases enqueueIngest_mem vis tv ls u h with h2 | h2
      · exact Or.inl h2
      · exact Or.inr (List.mem_cons_of_mem _ h2)

/-- Links found by `crawlSite` share the start URL's hostname and have been
fragment-normalized. -/
theorem crawlLinksIngest_spec {links : List RawLink} {start : Url} :
    ∀ u ∈ crawlLinksIngest links start, u.host = start.host ∧ u.frag = "" := by
  intro u hu
  unfold crawlLinksIngest at hu
  have h1 := List.mem_filter.mp hu
  refine ⟨by simpa using h1.2, ?_⟩
  obtain ⟨x, _, rfl⟩ := List.mem_map.mp h1.1
  rfl

/-- The ingest crawl loop only grows the visited list. -/
theorem crawlSiteGo_visited_mono (env : IngestEnv) (start : Url) :
    ∀ (f : Nat) (s : SiteState),
      s.visited ⊆ (crawlSiteGo env start f s).visited := by
  intro f
  induction f with
  | zero => intro s a ha; simpa [crawlSiteGo] using ha
  | succ f ih =>
    intro s
    cases hq : s.toVisit with
    | nil => simp [crawlSiteGo, hq]
    | cons current rest =>
      by_cases hmax : maxPagesIngest ≤ s.visited.length
      · simp [crawlSiteGo, hq, hmax]
      · by_cases hvis : current.clearFrag ∈ s.visited
        · have h2 : crawlSiteGo env start (f + 1) s
              = crawlSiteGo env start f { s with toVisit := rest } := by
            simp [crawlSiteGo, hq, hmax, hvis]
          rw [h2]
          exact ih { s with toVisit := rest }
        · cases hf : env.fetch current.clearFrag with
          | none =>
            have h2 : crawlSiteGo env start (f + 1) s
                = crawlSiteGo env start f ⟨s.visited ++ [current.clearFrag], rest⟩ := by
              simp [crawlSiteGo, hq, hmax, hvis, hf]
            rw [h2]
            intro a ha
            exact ih _ (List.mem_append_left _ ha)
          | some pg =>
            by_cases hok : pg.ok = false
            · have h2 : crawlSiteGo env start (f + 1) s
                  = crawlSiteGo env start f ⟨s.visited ++ [current.clearFrag], rest⟩ := by
                simp [crawlSiteGo, hq, hmax, hvis, hf, hok]
              rw [h2]
              intro a ha
              exact ih _ (List.mem_append_left _ ha)
            · have h2 : crawlSiteGo env start (f + 1) s
                  = crawlSiteGo env start f
                    ⟨s.visited ++ [current.clearFrag],
                     enqueueIngest (s.visited ++ [current.clearFrag]) rest
                       (crawlLinksIngest pg.links start)⟩ := by
                simp [crawlSiteGo, hq, hmax, hvis, hf, hok]
              rw [h2]
              intro a ha
              exact ih _ (List.mem_append_left _ ha)

/-- The ingest crawl loop preserves `siteInv`. -/
theorem crawlSiteGo_inv (env : IngestEnv) (start : Url) :
    ∀ (f : Nat) (s : SiteState),
      siteInv start s → siteInv start (crawlSiteGo env start f s) := by
  intro f
  induction f with
  | zero => intro s h; simpa [crawlSiteGo] using h
  | succ f ih =>
    intro s h
    obtain ⟨hnd, hlen, hvp, hqp⟩ := h
    cases hq : s.toVisit with
    | nil => simpa [crawlSiteGo, hq] using ⟨hnd, hlen, hvp, hqp⟩
    | cons current rest =>
      have hrest : ∀ u ∈ rest, u = start ∨ (u.host = start.host ∧ u.frag = "") :=
        fun u hu => hqp u (by rw [hq]; exact List.mem_cons_of_mem _ hu)
      have hcurp : current.clearFrag.host = start.host
          ∧ current.clearFrag.frag = "" := by
        rcases hqp current (by rw [hq]; exact List.mem_cons_self _ _) with rfl | hp
        · exact ⟨rfl, rfl⟩
        · exact ⟨hp.1, rfl⟩
      by_cases hmax : maxPagesIngest ≤ s.visited.length
      · simpa [crawlSiteGo, hq, hmax] using ⟨hnd, hlen, hvp, hqp⟩
      · by_cases hvis : current.clearFrag ∈ s.visited
        · have h2 : crawlSiteGo env start (f + 1) s
              = crawlSiteGo env start f { s with toVisit := rest } := by
            simp [crawlSiteGo, hq, hmax, hvis]
          rw [h2]
          exact ih _ ⟨hnd, hlen, hvp, hrest⟩
        · have hvp' : ∀ u ∈ s.visited ++ [current.clearFrag],
              u.host = start.host ∧ u.frag = "" := by
            intro u hu
            rcases List.mem_append.mp hu with h1 | h1
            · exact hvp u h1
            · rw [List.mem_singleton.mp h1]; exact hcurp
          have hnd' : (s.visited ++ [current.clearFrag]).Nodup := by
            simp [List.nodup_append, hnd, hvis]
          have hlen' : (s.visited ++ [current.clearFrag]).length ≤ maxPagesIngest := by
            rw [List.length_append]
            have := Nat.lt_of_not_le hmax
            simp only [List.length_singleton]
            omega
          cases hf : env.fetch current.clearFrag with
          | none =>
            have h2 : crawlSiteGo env start (f + 1) s
                = crawlSiteGo env start f ⟨s.visited ++ [current.clearFrag], rest⟩ := by
              simp [crawlSiteGo, hq, hmax, hvis, hf]
            rw [h2]
            exact ih _ ⟨hnd', hlen', hvp', hrest⟩
          | some pg =>
            by_cases hok : pg.ok = false
            · have h2 : crawlSiteGo env start (f + 1) s
                  = crawlSiteGo env start f ⟨s.visited ++ [current.clearFrag], rest⟩ := by
                simp [crawlSiteGo, hq, hmax, hvis, hf, hok]
              rw [h2]
              exact ih _ ⟨hnd', hlen', hvp', hrest⟩
            · have h2 : crawlSiteGo env start (f + 1) s
                  = crawlSiteGo env start f
                    ⟨s.visited ++ [current.clearFrag],
                     enqueueIngest (s.visited ++ [current.clearFrag]) rest
                       (crawlLinksIngest pg.links start)⟩ := by
                simp [crawlSiteGo, hq, hmax, hvis, hf, hok]
              rw [h2]
              refine ih _ ⟨hnd', hlen', hvp', ?_⟩
              intro u hu
              rcases enqueueIngest_mem _ _ _ u hu with h1 | h1
              · exact hrest u h1
              · exact Or.inr (crawlLinksIngest_spec u h1)

/-- The normalized seed is visited: the first iteration of `crawlSite` pops
the raw start URL and visits its fragment-cleared form. -/
theorem crawlSiteRun_seed_mem (env : IngestEnv) (start : Url) :
    start.clearFrag ∈ (crawlSiteRun env start).visited := by
  have hfuel : ingestFuel = 299 + 1 := rfl
  rw [crawlSiteRun, hfuel]
  have hmono := crawlSiteGo_visited_mono env start 299
  cases hf : env.fetch start.clearFrag with
  | none =>
    have h2 : ∀ g : Nat, crawlSiteGo env start (g + 1) ⟨[], [start]⟩
        = crawlSiteGo env start g ⟨[start.clearFrag], []⟩ := by
      intro g
      simp [crawlSiteGo, maxPagesIngest, hf]
    rw [h2 299]
    exact hmono _ (List.mem_singleton_self _)
  | some pg =>
    by_cases hok : pg.ok = false
    · have h2 : ∀ g : Nat, crawlSiteGo env start (g + 1) ⟨[], [start]⟩
          = crawlSiteGo env start g ⟨[start.clearFrag], []⟩ := by
        intro g
        simp [crawlSiteGo, maxPagesIngest, hf, hok]
      rw [h2 299]
      exact hmono _ (List.mem_singleton_self _)
    · have h2 : ∀ g : Nat, crawlSiteGo env start (g + 1) ⟨[], [start]⟩
          = crawlSiteGo env start g
            ⟨[start.clearFrag],
             enqueueIngest [start.clearFrag] [] (crawlLinksIngest pg.links start)⟩ := by
        intro g
        simp [crawlSiteGo, maxPagesIngest, hf, hok]
      rw [h2 299]
      exact hmono _ (List.mem_singleton_self _)

/-- C3 (amended): the admin crawl visits at most 8 URLs, including the seed,
all same-origin with the seed, none fetched twice (each URL is added to the
visited set exactly when it is fetched, so the duplicate-free visited list
is the fetch list); the ingest script's crawl visits at most 15 URLs,
including the fragment-normalized seed, all sharing the seed's hostname
(`isSameHost` compares hostnames, not origins), none fetched twice. -/
theorem crawler_bounded_sameorigin_nodup (env : AdminEnv) (base : Url)
    (ienv : IngestEnv) (start : Url) :
    ((crawlAdmin env base).visited.length ≤ maxPagesAdmin
      ∧ base ∈ (crawlAdmin env base).visited
      ∧ (∀ u ∈ (crawlAdmin env base).visited, u = base ∨ u.origin = base.origin)
      ∧ (crawlAdmin env base).visited.Nodup)
    ∧ ((crawlSiteRun ienv start).visited.length ≤ maxPagesIngest
      ∧ start.clearFrag ∈ (crawlSiteRun ienv start).visited
      ∧ (∀ u ∈ (crawlSiteRun ienv start).visited, u.host = start.host)
      ∧ (crawlSiteRun ienv start).visited.Nodup) := by
  have h1 := crawlAdminGo_inv env base adminFuel (initCrawlState base)
    (by simp [adminInv, initCrawlState, maxPagesAdmin])
  have h2 := crawlSiteGo_inv ienv start ingestFuel ⟨[], [start]⟩
    (by simp [siteInv, maxPagesIngest])
  rw [show crawlAdmin env base
      = crawlAdminGo env base adminFuel (initCrawlState base) from rfl] at *
  rw [show crawlSiteRun ienv start
      = crawlSiteGo ienv start ingestFuel ⟨[], [start]⟩ from rfl] at *
  exact ⟨⟨h1.2.1, crawlAdmin_base_mem env base, h1.2.2.1, h1.1⟩,
         ⟨h2.2.1, crawlSiteRun_seed_mem ienv start,
          fun u hu => (h2.2.2.1 u hu).1, h2.1⟩⟩

/-- C3 counterexample: the ingest crawler visits a URL that shares the
seed's hostname but not its origin (http vs https), and the raw seed (with
its fragment) is itself not in the visited set, only its normalized form. -/
theorem crawler_not_sameorigin_cex :
    httpLinkUrl ∈ (crawlSiteRun mixedSchemeEnv seedUrlFrag).visited
    ∧ httpLinkUrl ≠ seedUrlFrag.clearFrag
    ∧ httpLinkUrl.origin ≠ seedUrlFrag.origin
    ∧ seedUrlFrag ∉ (crawlSiteRun mixedSchemeEnv seedUrlFrag).visited := by decide

/-- Witness for C3 at the concrete fixtures. -/
theorem crawler_bounded_sameorigin_nodup_witness :
    (crawlSiteRun mixedSchemeEnv seedUrlFrag).visited.length ≤ maxPagesIngest
    ∧ httpLinkUrl ∈ (crawlSiteRun mixedSchemeEnv seedUrlFrag).visited
    ∧ httpLinkUrl.host = seedUrlFrag.host :=
  ⟨(crawler_bounded_sameorigin_nodup adminSiteEnv adminBase
      mixedSchemeEnv seedUrlFrag).2.1,
   by decide,
   (crawler_bounded_sameorigin_nodup adminSiteEnv adminBase
      mixedSchemeEnv seedUrlFrag).2.2.2.1 httpLinkUrl (by decide)⟩

/-- C8: a missing or mismatched admin password yields the 401 response with
no store events and no rows: the handler returns before any tenant lookup,
deletion or insert. -/
theorem admin_unauthorized_no_store_ops (req : AdminReq) (env : AdminEnv)
    (h : req.password = none ∨ req.password ≠ env.secret) :
    adminPOST req env = ⟨.unauthorized, [], emptyCrawlState⟩ := by
  have hpw : passwordOk req.password env.secret = false := by
    cases hp : req.password with
    | none => rfl
    | some p =>
      rcases h with h2 | h2
      · rw [hp] at h2
        exact absurd h2 (by simp)
      · rw [hp] at h2
        have hd : decide (env.secret = some p) = false :=
          decide_eq_false (fun he => h2 he.symm)
        show (!p.isEmpty && decide (env.secret = some p)) = false
        rw [hd, Bool.and_false]
  unfold adminPOST
  rw [hpw]
  simp

/-- Witness for C8 at a concrete password-less request. -/
theorem admin_unauthorized_no_store_ops_witness :
    adminNoPwReq.password = none
    ∧ adminPOST adminNoPwReq adminSiteEnv = ⟨.unauthorized, [], emptyCrawlState⟩ :=
  ⟨rfl, admin_unauthorized_no_store_ops adminNoPwReq adminSiteEnv (Or.inl rfl)⟩

/-- The admin crawl loop preserves `createdInv`. -/
theorem crawlAdminGo_createdInv (env : AdminEnv) (base : Url) :
    ∀ (f : Nat) (s : CrawlState),
      createdInv env s → createdInv env (crawlAdminGo env base f s) := by
  intro f
  induction f with
  | zero => intro s h; simpa [crawlAdminGo] using h
  | succ f ih =>
    intro s h
    cases hq : s.queue with
    | nil => simpa [crawlAdminGo, hq] using h
    | cons current rest =>
      by_cases hmax : maxPagesAdmin ≤ s.visited.length
      · simpa [crawlAdminGo, hq, hmax] using h
      · by_cases hvis : current ∈ s.visited
        · have h2 : crawlAdminGo env base (f + 1) s
              = crawlAdminGo env base f { s with queue := rest } := by
            simp [crawlAdminGo, hq, hmax, hvis]
          rw [h2]
          exact ih _ h
        · have h2 : crawlAdminGo env base (f + 1) s
              = crawlAdminGo env base f (crawlAdminStep env base current rest s) := by
            simp [crawlAdminGo, hq, hmax, hvis]
          rw [h2]
          refine ih _ ⟨?_, ?_⟩
          · intro u
            rw [crawlAdminStep_created, crawlAdminStep_visited]
            constructor
            · rintro ⟨t, ht⟩
              rcases List.mem_append.mp ht with h1 | h1
              · have h3 := (h.1 u).mp ⟨t, h1⟩
                exact ⟨List.mem_append_left _ h3.1, h3.2⟩
              · by_cases hg : goodPage env current = true
                · rw [if_pos hg] at h1
                  obtain ⟨rfl, -⟩ := Prod.mk.injEq .. ▸ List.mem_singleton.mp h1
                  exact ⟨List.mem_append_right _ (List.mem_singleton_self _), hg⟩
                · rw [if_neg hg] at h1
                  exact absurd h1 (List.not_mem_nil _)
            · rintro ⟨hu, hg⟩
              rcases List.mem_append.mp hu with h1 | h1
              · obtain ⟨t, ht⟩ := (h.1 u).mpr ⟨h1, hg⟩
                exact ⟨t, List.mem_append_left _ ht⟩
              · rw [List.mem_singleton.mp h1]
                rw [List.mem_singleton.mp h1] at hg
                refine ⟨titleFor base current, List.mem_append_right _ ?_⟩
                rw [if_pos hg]
                exact List.mem_singleton_self _
          · intro u
            rw [crawlAdminStep_kiRows, crawlAdminStep_visited]
            constructor
            · rintro ⟨c, hc⟩
              rcases List.mem_append.mp hc with h1 | h1
              · have h3 := (h.2 u).mp ⟨c, h1⟩
                exact ⟨List.mem_append_left _ h3.1, h3.2⟩
              · by_cases hg : goodPage env current = true
                · rw [if_pos hg] at h1
                  obtain ⟨rfl, -⟩ := Prod.mk.injEq .. ▸ List.mem_singleton.mp h1
                  exact ⟨List.mem_append_right _ (List.mem_singleton_self _), hg⟩
                · rw [if_neg hg] at h1
                  exact absurd h1 (List.not_mem_nil _)
            · rintro ⟨hu, hg⟩
              rcases List.mem_append.mp hu with h1 | h1
              · obtain ⟨c, hc⟩ := (h.2 u).mpr ⟨h1, hg⟩
                exact ⟨c, List.mem_append_left _ hc⟩
              · rw [List.mem_singleton.mp h1]
                rw [List.mem_singleton.mp h1] at hg
                refine ⟨(pageText env current).take 12000,
                  List.mem_append_right _ ?_⟩
                rw [if_pos hg]
                exact List.mem_singleton_self _

/-- C10: every successful admin response reports
`pages_processed = items.length`, and a URL contributes a created item (and
equivalently a knowledge-item row) exactly when it was visited, its fetch
returned ok with at least 200 characters of text, and its knowledge-item
insert succeeded — embedding failures do not remove it from the count. -/
theorem admin_pages_processed_counts (req : AdminReq) (env : AdminEnv)
    (base : Url) :
    pagesCountOk (adminPOST req env).res
    ∧ (∀ u : Url, (∃ t, (u, t) ∈ (crawlAdmin env base).created)
        ↔ (u ∈ (crawlAdmin env base).visited ∧ goodPage env u = true))
    ∧ (∀ u : Url, (∃ c, (u, c) ∈ (crawlAdmin env base).kiRows)
        ↔ (∃ t, (u, t) ∈ (crawlAdmin env base).created)) := by
  have hinv : createdInv env (crawlAdmin env base) := by
    rw [show crawlAdmin env base
        = crawlAdminGo env base adminFuel (initCrawlState base) from rfl]
    refine crawlAdminGo_createdInv env base adminFuel (initCrawlState base) ⟨?_, ?_⟩
    all_goals intro u; simp [initCrawlState]
  refine ⟨?_, hinv.1, fun u => (hinv.2 u).trans (hinv.1 u).symm⟩
  unfold adminPOST
  repeat' split
  all_goals simp [pagesCountOk]

set_option maxRecDepth 4000 in
/-- Witness for C10 at the concrete two-page admin site. -/
theorem admin_pages_processed_counts_witness :
    (adminBase ∈ (crawlAdmin adminSiteEnv adminBase).visited
      ∧ goodPage adminSiteEnv adminBase = true)
    ∧ (∃ t, (adminBase, t) ∈ (crawlAdmin adminSiteEnv adminBase).created) :=
  ⟨by decide,
   ((admin_pages_processed_counts adminNoPwReq adminSiteEnv adminBase).2.1
      adminBase).mpr (by decide)⟩

/-- The admin crawl loop preserves `rowsInv`. -/
theorem crawlAdminGo_rowsInv (env : AdminEnv) (base : Url) :
    ∀ (f : Nat) (s : CrawlState),
      rowsInv env s → rowsInv env (crawlAdminGo env base f s) := by
  intro f
  induction f with
  | zero => intro s h; simpa [crawlAdminGo] using h
  | succ f ih =>
    intro s h
    cases hq : s.queue with
    | nil => simpa [crawlAdminGo, hq] using h
    | cons current rest =>
      by_cases hmax : maxPagesAdmin ≤ s.visited.length
      · simpa [crawlAdminGo, hq, hmax] using h
      · by_cases hvis : current ∈ s.visited
        · have h2 : crawlAdminGo env base (f + 1) s
              = crawlAdminGo env base f { s with queue := rest } := by
            simp [crawlAdminGo, hq, hmax, hvis]
          rw [h2]
          exact ih _ h
        · have h2 : crawlAdminGo env base (f + 1) s
              = crawlAdminGo env base f (crawlAdminStep env base current rest s) := by
            simp [crawlAdminGo, hq, hmax, hvis]
          rw [h2]
          refine ih _ ⟨?_, ?_⟩
          · intro p hp
            rw [crawlAdminStep_kiRows] at hp
            rcases List.mem_append.mp hp with h1 | h1
            · exact h.1 p h1
            · by_cases hg : goodPage env current = true
              · rw [if_pos hg] at h1
                rw [List.mem_singleton.mp h1]
              · rw [if_neg hg] at h1
                exact absurd h1 (List.not_mem_nil _)
          · intro p hp
            rw [crawlAdminStep_embRows] at hp
            rcases List.mem_append.mp hp with h1 | h1
            · exact h.2 p h1
            · by_cases hg : (goodPage env current && env.embCreateOk current
                  && env.embInsOk current) = true
              · rw [if_pos hg] at h1
                rw [List.mem_singleton.mp h1]
              · rw [if_neg hg] at h1
                exact absurd h1 (List.not_mem_nil _)

/-- A trace whose embedding rows equal its knowledge-item contents is in
sync. -/
theorem traceSync_of_eq {tr : IngestTrace}
    (h : tr.embRows = tr.kiRows.map Prod.snd) : traceSync tr :=
  ⟨fun _ => h, h ▸ List.prefix_refl _, by rw [← h]; omega⟩

/-- A trace that aborts without inserting keeps its sync. -/
theorem traceSync_abort_of_eq {tr : IngestTrace}
    (h : tr.embRows = tr.kiRows.map Prod.snd) :
    traceSync { tr with aborted := true } := by
  refine ⟨fun h2 => by simp at h2, ?_, ?_⟩
  · show tr.embRows <+: tr.kiRows.map Prod.snd
    rw [h]
  · show (tr.kiRows.map Prod.snd).length ≤ tr.embRows.length + 1
    rw [h]
    omega

/-- A trace that aborts right after inserting one knowledge item is one
entry ahead of its embeddings. -/
theorem traceSync_abort_one_more {tr : IngestTrace} (url : Url) (c : List Char)
    (h : tr.embRows = tr.kiRows.map Prod.snd) :
    traceSync { tr with kiRows := tr.kiRows ++ [(url, c)], aborted := true } := by
  refine ⟨fun h2 => by simp at h2, ?_, ?_⟩
  · show tr.embRows <+: ((tr.kiRows ++ [(url, c)]).map Prod.snd)
    rw [List.map_append, h]
    exact List.prefix_append _ _
  · show ((tr.kiRows ++ [(url, c)]).map Prod.snd).length ≤ tr.embRows.length + 1
    rw [List.map_append, List.length_append, h]
    simp

/-- The per-chunk ingest loop keeps traces in sync. -/
theorem ingestChunks_sync (env : IngestEnv) (url : Url) :
    ∀ (cs : List (List Char)) (i : Nat) (tr : IngestTrace),
      tr.aborted = false → tr.embRows = tr.kiRows.map Prod.snd →
        traceSync (ingestChunks env url cs i tr)
  | [], _, tr, _, heq => traceSync_of_eq heq
  | c :: cs, i, tr, hab, heq => by
    rw [ingestChunks]
    by_cases hki : env.kiOk url i = false
    · rw [if_pos hki]
      exact traceSync_abort_of_eq heq
    · rw [if_neg hki]
      dsimp only
      by_cases hem : env.embedOk url i = false
      · rw [if_pos hem]
        exact traceSync_abort_one_more url c heq
      · rw [if_neg hem]
        by_cases hins : env.embInsOk url i = false
        · rw [if_pos hins]
          exact traceSync_abort_one_more url c heq
        · rw [if_neg hins]
          refine ingestChunks_sync env url cs (i + 1) _ hab ?_
          show tr.embRows ++ [c] = (tr.kiRows ++ [(url, c)]).map Prod.snd
          rw [List.map_append, heq]
          rfl

/-- The per-page ingest loop keeps traces in sync. -/
theorem ingestPages_sync (env : IngestEnv) :
    ∀ (us : List Url) (tr : IngestTrace),
      tr.aborted = false → tr.embRows = tr.kiRows.map Prod.snd →
        traceSync (ingestPages env us tr)
  | [], tr, _, heq => traceSync_of_eq heq
  | u :: us, tr, hab, heq => by
    rw [ingestPages]
    cases hf : env.fetch u with
    | none =>
      dsimp only
      exact traceSync_abort_of_eq heq
    | some pg =>
      dsimp only
      by_cases hlen : (if pg.ok = true then pg.text else []).length < 20
      · rw [if_pos hlen]
        exact ingestPages_sync env us tr hab heq
      · rw [if_neg hlen]
        have hsync := ingestChunks_sync env u
          (chunk (if pg.ok = true then pg.text else [])) 0 tr hab heq
        by_cases habort : (ingestChunks env u
            (chunk (if pg.ok = true then pg.text else [])) 0 tr).aborted = true
        · rw [if_pos habort]
          exact hsync
        · rw [if_neg habort]
          exact ingestPages_sync env us _ (eq_false_of_ne_true habort)
            (hsync.1 (eq_false_of_ne_true habort))

/-- C9 (amended): in the admin route, the embedding row inserted for a page
carries the knowledge item's content truncated to 8000 characters (the
knowledge item keeps up to 12000, so the two differ on pages longer than
8000 characters); in the ingest script, embedding contents equal the chunk
contents of their knowledge items, except that an aborted run may have one
trailing knowledge item without its embedding. -/
theorem embedding_content_vs_item_content (env : AdminEnv) (base : Url)
    (ienv : IngestEnv) (start : Url) :
    (∀ (u : Url) (c1 c2 : List Char),
      (u, c1) ∈ (crawlAdmin env base).kiRows →
        (u, c2) ∈ (crawlAdmin env base).embRows → c2 = c1.take 8000)
    ∧ ((ingestMain ienv start).embRows
        <+: ((ingestMain ienv start).kiRows.map Prod.snd)
      ∧ ((ingestMain ienv start).kiRows.map Prod.snd).length
          ≤ (ingestMain ienv start).embRows.length + 1) := by
  constructor
  · intro u c1 c2 h1 h2
    have hinv : rowsInv env (crawlAdmin env base) := by
      rw [show crawlAdmin env base
          = crawlAdminGo env base adminFuel (initCrawlState base) from rfl]
      refine crawlAdminGo_rowsInv env base adminFuel (initCrawlState base) ⟨?_, ?_⟩
      all_goals simp [initCrawlState]
    have e1 := hinv.1 (u, c1) h1
    have e2 := hinv.2 (u, c2) h2
    simp only at e1 e2
    rw [e1, e2, List.take_take]
    norm_num
  · have h := ingestPages_sync ienv (crawlSiteRun ienv start).visited
      ⟨[], [], false⟩ rfl rfl
    exact ⟨h.2.1, h.2.2⟩

/-- A crawl loop with an empty queue is finished, whatever the fuel. -/
theorem crawlAdminGo_nil_queue (env : AdminEnv) (base : Url) :
    ∀ (f : Nat) (s : CrawlState), s.queue = [] → crawlAdminGo env base f s = s := by
  intro f
  cases f <;> intro s h <;> simp [crawlAdminGo, h]

/-- The one-page 8001-character site is processed into exactly one
knowledge-item row holding all 8001 characters and one embedding row
holding the first 8000. -/
theorem bigPage_rows :
    (crawlAdmin bigPageEnv adminBase).kiRows
      = [(adminBase, List.replicate 8001 ('a'))]
    ∧ (crawlAdmin bigPageEnv adminBase).embRows
      = [(adminBase, List.replicate 8000 ('a'))] := by
  have hfetchbig : bigPageEnv.fetch adminBase
      = some ⟨true, List.replicate 8001 ('a'), []⟩ := rfl
  have hgood : goodPage bigPageEnv adminBase = true := by
    unfold goodPage
    rw [hfetchbig]
    dsimp only
    rw [List.length_replicate]
    decide
  have hpt : pageText bigPageEnv adminBase = List.replicate 8001 ('a') := by
    unfold pageText
    rw [hfetchbig]
  have h0 : ∀ g : Nat,
      crawlAdminGo bigPageEnv adminBase (g + 1) (initCrawlState adminBase)
        = crawlAdminGo bigPageEnv adminBase g
            (crawlAdminStep bigPageEnv adminBase adminBase [] (initCrawlState adminBase)) := by
    intro g
    simp [crawlAdminGo, initCrawlState, maxPagesAdmin]
  have hq : (crawlAdminStep bigPageEnv adminBase adminBase []
      (initCrawlState adminBase)).queue = [] := by
    rw [crawlAdminStep_queue, if_pos ⟨rfl, hgood⟩]
    have hl : pageLinks bigPageEnv adminBase = [] := by
      unfold pageLinks
      rw [hfetchbig]
    rw [hl]
    rfl
  have hrun : crawlAdmin bigPageEnv adminBase
      = crawlAdminStep bigPageEnv adminBase adminBase [] (initCrawlState adminBase) := by
    rw [show crawlAdmin bigPageEnv adminBase
        = crawlAdminGo bigPageEnv adminBase (99 + 1) (initCrawlState adminBase) from rfl,
      h0 99]
    exact crawlAdminGo_nil_queue _ _ 99 _ hq
  constructor
  · rw [hrun, crawlAdminStep_kiRows, hgood, if_pos rfl, hpt, List.take_replicate]
    show [] ++ [(adminBase, List.replicate (min 12000 8001) ('a'))] = _
    have hmin : min 12000 8001 = 8001 := by norm_num
    rw [List.nil_append, hmin]
  · have hcond : (goodPage bigPageEnv adminBase && bigPageEnv.embCreateOk adminBase
        && bigPageEnv.embInsOk adminBase) = true := by
      rw [hgood]
      rfl
    rw [hrun, crawlAdminStep_embRows, hcond, if_pos rfl, hpt, List.take_replicate]
    show [] ++ [(adminBase, List.replicate (min 8000 8001) ('a'))] = _
    have hmin : min 8000 8001 = 8000 := by norm_num
    rw [List.nil_append, hmin]

/-- Texts of different lengths are different. -/
theorem replicate_8001_ne_8000 :
    List.replicate 8001 ('a') ≠ List.replicate 8000 ('a') := by
  intro h
  have h2 := congrArg List.length h
  rw [List.length_replicate, List.length_replicate] at h2
  omega

/-- C9 counterexample: on a page with 8001 characters of text, the admin
route stores all 8001 characters in the knowledge item but only the first
8000 in the embedding row, so the two contents differ. -/
theorem embedding_content_mismatch_cex :
    (crawlAdmin bigPageEnv adminBase).kiRows
      = [(adminBase, List.replicate 8001 ('a'))]
    ∧ (crawlAdmin bigPageEnv adminBase).embRows
      = [(adminBase, List.replicate 8000 ('a'))]
    ∧ List.replicate 8001 ('a') ≠ List.replicate 8000 ('a') :=
  ⟨bigPage_rows.1, bigPage_rows.2, replicate_8001_ne_8000⟩

/-- Witness for C9 at the 8001-character page. -/
theorem embedding_content_vs_item_content_witness :
    (adminBase, List.replicate 8001 ('a')) ∈ (crawlAdmin bigPageEnv adminBase).kiRows
    ∧ List.replicate 8000 ('a') = (List.replicate 8001 ('a')).take 8000 :=
  ⟨bigPage_rows.1 ▸ List.mem_singleton_self _,
   (embedding_content_vs_item_content bigPageEnv adminBase
      mixedSchemeEnv seedUrlFrag).1 adminBase
     (List.replicate 8001 ('a')) (List.replicate 8000 ('a'))
     (bigPage_rows.1 ▸ List.mem_singleton_self _)
     (bigPage_rows.2 ▸ List.mem_singleton_self _)⟩

/-- Removing a URL's rows distributes over append. -/
theorem filterOutUrl_append {α : Type} (u : Url) (a b : List (Url × α)) :
    filterOutUrl u (a ++ b) = filterOutUrl u a ++ filterOutUrl u b :=
  List.filter_append _ _

/-- The rows a step may add for URL `u` vanish after removing `u`. -/
theorem filterOutUrl_self_ite {α : Type} (u : Url) (x : α) (P : Prop)
    [Decidable P] :
    filterOutUrl u (if P then [(u, x)] else []) = [] := by
  by_cases h : P <;> simp [h, filterOutUrl]

/-- `goodPage` only reads the environment at its URL. -/
theorem goodPage_congr {e1 e2 : AdminEnv} {v : Url}
    (hf : e1.fetch v = e2.fetch v) (hki : e1.kiOk v = e2.kiOk v) :
    goodPage e1 v = goodPage e2 v := by
  unfold goodPage
  rw [hf, hki]

/-- A fresh-page step in two environments that agree everywhere except at a
non-seed URL `u` preserves `frameAgree u`. -/
theorem crawlAdminStep_frame {e1 e2 : AdminEnv} {base u current : Url}
    {rest : List Url} {s1 s2 : CrawlState}
    (hub : u ≠ base)
    (hf : ∀ v, v ≠ u → e1.fetch v = e2.fetch v)
    (hki : ∀ v, v ≠ u → e1.kiOk v = e2.kiOk v)
    (hec : ∀ v, v ≠ u → e1.embCreateOk v = e2.embCreateOk v)
    (hei : ∀ v, v ≠ u → e1.embInsOk v = e2.embInsOk v)
    (h : frameAgree u s1 s2) :
    frameAgree u (crawlAdminStep e1 base current rest s1)
      (crawlAdminStep e2 base current rest s2) := by
  obtain ⟨hv, hq, hc, hk, he⟩ := h
  by_cases hcu : current = u
  · subst hcu
    refine ⟨?_, ?_, ?_, ?_, ?_⟩
    · rw [crawlAdminStep_visited, crawlAdminStep_visited, hv]
    · rw [crawlAdminStep_queue, crawlAdminStep_queue,
        if_neg (fun hh => hub hh.1), if_neg (fun hh => hub hh.1)]
    · rw [crawlAdminStep_created, crawlAdminStep_created,
        filterOutUrl_append, filterOutUrl_append, hc,
        filterOutUrl_self_ite, filterOutUrl_self_ite]
    · rw [crawlAdminStep_kiRows, crawlAdminStep_kiRows,
        filterOutUrl_append, filterOutUrl_append, hk,
        filterOutUrl_self_ite, filterOutUrl_self_ite]
    · rw [crawlAdminStep_embRows, crawlAdminStep_embRows,
        filterOutUrl_append, filterOutUrl_append, he,
        filterOutUrl_self_ite, filterOutUrl_self_ite]
  · have hfc := hf current hcu
    have hgc := goodPage_congr hfc (hki current hcu)
    have htc : pageText e1 current = pageText e2 current := by
      unfold pageText
      rw [hfc]
    have hlc : pageLinks e1 current = pageLinks e2 current := by
      unfold pageLinks
      rw [hfc]
    refine ⟨?_, ?_, ?_, ?_, ?_⟩
    · rw [crawlAdminStep_visited, crawlAdminStep_visited, hv]
    · rw [crawlAdminStep_queue, crawlAdminStep_queue, hgc, hlc, hv]
    · rw [crawlAdminStep_created, crawlAdminStep_created, hgc,
        filterOutUrl_append, filterOutUrl_append, hc]
    · rw [crawlAdminStep_kiRows, crawlAdminStep_kiRows, hgc, htc,
        filterOutUrl_append, filterOutUrl_append, hk]
    · rw [crawlAdminStep_embRows, crawlAdminStep_embRows, hgc, htc,
        hec current hcu, hei current hcu,
        filterOutUrl_append, filterOutUrl_append, he]

/-- The admin crawl loop, run in two environments that agree everywhere
except at a non-seed URL `u`, preserves `frameAgree u`: the traversal is
identical and all rows except `u`'s coincide. -/
theorem crawlAdminGo_frame (e1 e2 : AdminEnv) (base u : Url)
    (hub : u ≠ base)
    (hf : ∀ v, v ≠ u → e1.fetch v = e2.fetch v)
    (hki : ∀ v, v ≠ u → e1.kiOk v = e2.kiOk v)
    (hec : ∀ v, v ≠ u → e1.embCreateOk v = e2.embCreateOk v)
    (hei : ∀ v, v ≠ u → e1.embInsOk v = e2.embInsOk v) :
    ∀ (f : Nat) (s1 s2 : CrawlState), frameAgree u s1 s2 →
      frameAgree u (crawlAdminGo e1 base f s1) (crawlAdminGo e2 base f s2) := by
  intro f
  induction f with
  | zero => intro s1 s2 h; simpa [crawlAdminGo] using h
  | succ f ih =>
    intro s1 s2 h
    obtain ⟨hv, hq, hc, hk, he⟩ := h
    cases hq1 : s1.queue with
    | nil =>
      have hq2 : s2.queue = [] := by rw [← hq, hq1]
      simpa [crawlAdminGo, hq1, hq2] using ⟨hv, hq, hc, hk, he⟩
    | cons current rest =>
      have hq2 : s2.queue = current :: rest := by rw [← hq, hq1]
      by_cases hmax : maxPagesAdmin ≤ s1.visited.length
      · have hmax2 : maxPagesAdmin ≤ s2.visited.length := by rw [← hv]; exact hmax
        simpa [crawlAdminGo, hq1, hq2, hmax, hmax2] using ⟨hv, hq, hc, hk, he⟩
      · have hmax2 : ¬ maxPagesAdmin ≤ s2.visited.length := by rw [← hv]; exact hmax
        by_cases hvis : current ∈ s1.visited
        · have hvis2 : current ∈ s2.visited := by rw [← hv]; exact hvis
          have ha : crawlAdminGo e1 base (f + 1) s1
              = crawlAdminGo e1 base f { s1 with queue := rest } := by
            simp [crawlAdminGo, hq1, hmax, hvis]
          have hb : crawlAdminGo e2 base (f + 1) s2
              = crawlAdminGo e2 base f { s2 with queue := rest } := by
            simp [crawlAdminGo, hq2, hmax2, hvis2]
          rw [ha, hb]
          exact ih _ _ ⟨hv, rfl, hc, hk, he⟩
        · have hvis2 : current ∉ s2.visited := by rw [← hv]; exact hvis
          have ha : crawlAdminGo e1 base (f + 1) s1
              = crawlAdminGo e1 base f (crawlAdminStep e1 base current rest s1) := by
            simp [crawlAdminGo, hq1, hmax, hvis]
          have hb : crawlAdminGo e2 base (f + 1) s2
              = crawlAdminGo e2 base f (crawlAdminStep e2 base current rest s2) := by
            simp [crawlAdminGo, hq2, hmax2, hvis2]
          rw [ha, hb]
          exact ih _ _ (crawlAdminStep_frame hub hf hki hec hei ⟨hv, hq, hc, hk, he⟩)

/-- With all-success oracles the per-chunk loop never aborts. -/
theorem ingestChunks_no_abort {env : IngestEnv} {url : Url}
    (h : ingestAllOk env) :
    ∀ (cs : List (List Char)) (i : Nat) (tr : IngestTrace),
      (ingestChunks env url cs i tr).aborted = tr.aborted
  | [], _, _ => rfl
  | c :: cs, i, tr => by
    rw [ingestChunks]
    rw [if_neg (by simp [h.2.1 url i] : ¬ env.kiOk url i = false)]
    dsimp only
    rw [if_neg (by simp [h.2.2.1 url i] : ¬ env.embedOk url i = false)]
    rw [if_neg (by simp [h.2.2.2 url i] : ¬ env.embInsOk url i = false)]
    exact ingestChunks_no_abort h cs (i + 1) _

/-- With all-success oracles the per-page loop never aborts. -/
theorem ingestPages_no_abort {env : IngestEnv} (h : ingestAllOk env) :
    ∀ (us : List Url) (tr : IngestTrace), tr.aborted = false →
      (ingestPages env us tr).aborted = false
  | [], _, hab => hab
  | u :: us, tr, hab => by
    rw [ingestPages]
    cases hfu : env.fetch u with
    | none => exact absurd hfu (h.1 u)
    | some pg =>
      dsimp only
      by_cases hlen : (if pg.ok = true then pg.text else []).length < 20
      · rw [if_pos hlen]
        exact ingestPages_no_abort h us tr hab
      · rw [if_neg hlen]
        have hnab : (ingestChunks env u
            (chunk (if pg.ok = true then pg.text else [])) 0 tr).aborted = false := by
          rw [ingestChunks_no_abort h]
          exact hab
        rw [if_neg (by rw [hnab]; simp)]
        exact ingestPages_no_abort h us _ hnab

/-- C7 (amended): in the admin route, the outcome of one non-seed page's
fetch, knowledge-item insert, embedding call or embedding insert affects
only that page: two runs whose environments agree except at that page visit
the same URLs and produce the same created items and rows for all other
pages.  In the ingest script, a run completes when no fetch throws and no
insert or embedding call fails; any single such failure aborts the whole
remaining run (see the counterexample). -/
theorem ingestion_failure_isolation (e1 e2 : AdminEnv) (base u : Url)
    (ienv : IngestEnv) (start : Url)
    (hub : u ≠ base)
    (hf : ∀ v, v ≠ u → e1.fetch v = e2.fetch v)
    (hki : ∀ v, v ≠ u → e1.kiOk v = e2.kiOk v)
    (hec : ∀ v, v ≠ u → e1.embCreateOk v = e2.embCreateOk v)
    (hei : ∀ v, v ≠ u → e1.embInsOk v = e2.embInsOk v)
    (hok : ingestAllOk ienv) :
    ((crawlAdmin e1 base).visited = (crawlAdmin e2 base).visited
      ∧ filterOutUrl u (crawlAdmin e1 base).created
          = filterOutUrl u (crawlAdmin e2 base).created
      ∧ filterOutUrl u (crawlAdmin e1 base).kiRows
          = filterOutUrl u (crawlAdmin e2 base).kiRows
      ∧ filterOutUrl u (crawlAdmin e1 base).embRows
          = filterOutUrl u (crawlAdmin e2 base).embRows)
    ∧ (ingestMain ienv start).aborted = false := by
  have hframe := crawlAdminGo_frame e1 e2 base u hub hf hki hec hei adminFuel
    (initCrawlState base) (initCrawlState base) ⟨rfl, rfl, rfl, rfl, rfl⟩
  exact ⟨⟨hframe.1, hframe.2.2.1, hframe.2.2.2.1, hframe.2.2.2.2⟩,
    ingestPages_no_abort hok _ _ rfl⟩

set_option maxRecDepth 4000 in
/-- C7 counterexample: a single knowledge-item insert failure is not
isolated.  In the admin route, when the seed page's insert fails, the crawl
never discovers the second page (which would have processed fine), so the
whole run produces nothing; in the ingest script, a failing insert aborts
the run before any row is stored even though the crawl found two good
pages. -/
theorem ingestion_failure_not_isolated_cex :
    (crawlAdmin adminSeedKiFailEnv adminBase).visited = [adminBase]
    ∧ (crawlAdmin adminSeedKiFailEnv adminBase).created = []
    ∧ goodPage adminSeedKiFailEnv adminPage2 = true
    ∧ (crawlAdmin adminSiteEnv adminBase).visited = [adminBase, adminPage2]
    ∧ (crawlAdmin adminSiteEnv adminBase).created.length = 2
    ∧ (crawlSiteRun ingestKiFailEnv adminBase).visited = [adminBase, adminPage2]
    ∧ (ingestMain ingestKiFailEnv adminBase).aborted = true
    ∧ (ingestMain ingestKiFailEnv adminBase).kiRows = [] := by decide

set_option maxRecDepth 4000 in
/-- Witness for C7 at the two-page fixtures, varying the second page's
knowledge-item insert. -/
theorem ingestion_failure_isolation_witness :
    adminPage2 ≠ adminBase
    ∧ (crawlAdmin adminSiteEnv adminBase).visited
        = (crawlAdmin adminP2KiFailEnv adminBase).visited
    ∧ (ingestMain ingestOkEnv adminBase).aborted = false :=
  ⟨by decide,
   (ingestion_failure_isolation adminSiteEnv adminP2KiFailEnv adminBase adminPage2
      ingestOkEnv adminBase (by decide)
      (fun _ _ => rfl)
      (fun v hv => by simp [adminSiteEnv, adminP2KiFailEnv, hv])
      (fun _ _ => rfl) (fun _ _ => rfl)
      ⟨fun v => by
          show (if v = adminBase then _ else if v = adminPage2 then _ else _) ≠ none
          split_ifs <;> simp,
        fun _ _ => rfl, fun _ _ => rfl, fun _ _ => rfl⟩).1.1,
   (ingestion_failure_isolation adminSiteEnv adminP2KiFailEnv adminBase adminPage2
      ingestOkEnv adminBase (by decide)
      (fun _ _ => rfl)
      (fun v hv => by simp [adminSiteEnv, adminP2KiFailEnv, hv])
      (fun _ _ => rfl) (fun _ _ => rfl)
      ⟨fun v => by
          show (if v = adminBase then _ else if v = adminPage2 then _ else _) ≠ none
          split_ifs <;> simp,
        fun _ _ => rfl, fun _ _ => rfl, fun _ _ => rfl⟩).2⟩

/-- A fresh-page step strictly lowers `adminFuelNeed`. -/
theorem adminFuelNeed_step (env : AdminEnv) (base current : Url)
    (rest : List Url) (s : CrawlState)
    (hq : s.queue = current :: rest) (hvis : current ∉ s.visited) :
    adminFuelNeed base (crawlAdminStep env base current rest s) + 1
      ≤ adminFuelNeed base s := by
  unfold adminFuelNeed
  rw [crawlAdminStep_visited, crawlAdminStep_queue, hq]
  by_cases hcb : current = base
  · have hnotin : base ∉ s.visited := by rw [← hcb]; exact hvis
    have hin : base ∈ s.visited ++ [current] := by
      rw [hcb]
      exact List.mem_append_right _ (List.mem_singleton_self _)
    rw [if_pos hin, if_neg hnotin, List.length_append, List.length_cons]
    by_cases hP : current = base ∧ goodPage env current = true
    · rw [if_pos hP]
      have h10 : (((extractLinks (pageLinks env current) base).take 10).filter
          (fun l => !(decide (l ∈ s.visited ++ [current])))).length ≤ 10 :=
        le_trans (List.length_filter_le _ _) (List.length_take_le _ _)
      omega
    · rw [if_neg hP]
      simp only [List.length_nil]
      omega
  · have hsame : (base ∈ s.visited ++ [current]) ↔ base ∈ s.visited := by
      rw [List.mem_append, List.mem_singleton]
      constructor
      · rintro (h | h)
        · exact h
        · exact absurd h.symm hcb
      · exact Or.inl
    have hcond : ¬ (current = base ∧ goodPage env current = true) :=
      fun hh => hcb hh.1
    rw [if_neg hcond, List.append_nil, List.length_cons]
    by_cases hb : base ∈ s.visited
    · rw [if_pos hb, if_pos (hsame.mpr hb)]
    · rw [if_neg hb, if_neg (fun hh => hb (hsame.mp hh))]

/-- The admin crawl loop's result does not depend on the fuel, as long as
the fuel covers `adminFuelNeed`: the loop always terminates within that
many iterations. -/
theorem crawlAdminGo_fuel_stable (env : AdminEnv) (base : Url) :
    ∀ (f1 : Nat) (s : CrawlState) (f2 : Nat),
      adminFuelNeed base s ≤ f1 → adminFuelNeed base s ≤ f2 →
      crawlAdminGo env base f1 s = crawlAdminGo env base f2 s := by
  intro f1
  induction f1 with
  | zero =>
    intro s f2 h1 _
    have hq : s.queue = [] := by
      have hlen : s.queue.length = 0 := by
        unfold adminFuelNeed at h1
        omega
      exact List.length_eq_zero.mp hlen
    rw [crawlAdminGo_nil_queue _ _ 0 s hq, crawlAdminGo_nil_queue _ _ f2 s hq]
  | succ f1 ih =>
    intro s f2 h1 h2
    cases hq : s.queue with
    | nil => rw [crawlAdminGo_nil_queue _ _ _ s hq, crawlAdminGo_nil_queue _ _ f2 s hq]
    | cons current rest =>
      have hN1 : 1 ≤ adminFuelNeed base s := by
        unfold adminFuelNeed
        rw [hq]
        simp only [List.length_cons]
        omega
      obtain ⟨f2', rfl⟩ : ∃ f2', f2 = f2' + 1 := ⟨f2 - 1, by omega⟩
      by_cases hmax : maxPagesAdmin ≤ s.visited.length
      · simp [crawlAdminGo, hq, hmax]
      · by_cases hvis : current ∈ s.visited
        · have ha : crawlAdminGo env base (f1 + 1) s
              = crawlAdminGo env base f1 { s with queue := rest } := by
            simp [crawlAdminGo, hq, hmax, hvis]
          have hb : crawlAdminGo env base (f2' + 1) s
              = crawlAdminGo env base f2' { s with queue := rest } := by
            simp [crawlAdminGo, hq, hmax, hvis]
          rw [ha, hb]
          have hN' : adminFuelNeed base { s with queue := rest } + 1
              ≤ adminFuelNeed base s := by
            unfold adminFuelNeed
            rw [hq]
            simp only [List.length_cons]
            omega
          exact ih _ f2' (by omega) (by omega)
        · have ha : crawlAdminGo env base (f1 + 1) s
              = crawlAdminGo env base f1 (crawlAdminStep env base current rest s) := by
            simp [crawlAdminGo, hq, hmax, hvis]
          have hb : crawlAdminGo env base (f2' + 1) s
              = crawlAdminGo env base f2' (crawlAdminStep env base current rest s) := by
            simp [crawlAdminGo, hq, hmax, hvis]
          rw [ha, hb]
          have hN' := adminFuelNeed_step env base current rest s hq hvis
          exact ih _ f2' (by omega) (by omega)

/-- Any fuel of at least 12 yields the admin crawl's result: the chosen
`adminFuel = 100` provably never cuts a run short. -/
theorem crawlAdmin_fuel_irrelevant (env : AdminEnv) (base : Url) (f : Nat)
    (hf : 12 ≤ f) :
    crawlAdminGo env base f (initCrawlState base) = crawlAdmin env base := by
  have hN : adminFuelNeed base (initCrawlState base) = 12 := by
    simp [adminFuelNeed, initCrawlState]
  exact crawlAdminGo_fuel_stable env base f _ adminFuel
    (by rw [hN]; omega) (by rw [hN]; decide)

/-- Witnessing fuel irrelevance at a concrete fuel. -/
theorem crawlAdmin_fuel_irrelevant_example :
    crawlAdminGo adminSiteEnv adminBase 50 (initCrawlState adminBase)
      = crawlAdmin adminSiteEnv adminBase :=
  crawlAdmin_fuel_irrelevant adminSiteEnv adminBase 50 (by omega)
